import Mathlib

/-!
Verification of the linked-object persistence engine of the
`persistent-random-data` repository (TtPersistence services).

The development shallowly embeds the JavaScript/TypeScript code as pure Lean
functions over a JSON-like value type.  JavaScript objects are modelled as
insertion-ordered association lists, JS `Map`s likewise.  Asynchronous
observable pipelines are modelled by explicit state passing; where the result
of a pipeline depends on the deterministic event-loop order of IndexedDB
request callbacks, that order is modelled explicitly and documented at the
definition.  Recursions of the source that follow the (assumed acyclic) link
graph or the heap are bounded by an explicit fuel parameter; the claims are
either fuel-universal or evaluated at concrete inputs with ample fuel.
-/

namespace TtPersistence

/-- JSON-like runtime values: the model of the TypeScript `Unknown` values the
persistence services operate on.  `vundef` models JavaScript `undefined`,
which the delete cascade and the re-linking pipeline produce as a value. -/
inductive Value : Type where
  | vstr : String → Value
  | vnum : Int → Value
  | vbool : Bool → Value
  | vnull : Value
  | vundef : Value
  | vobj : List (String × Value) → Value
  | varr : List Value → Value
deriving Repr, Inhabited

mutual

/-- Decidable structural equality for values (hand-rolled: the automatic
derivation does not handle the nesting through lists). -/
def Value.decEq (a b : Value) : Decidable (a = b) := by
  cases a <;> cases b <;> try { apply isFalse; intro h; injection h }
  case vstr.vstr s₁ s₂ =>
    exact if h : s₁ = s₂ then isTrue (by rw [h])
      else isFalse (by intro hh; injection hh; contradiction)
  case vnum.vnum n₁ n₂ =>
    exact if h : n₁ = n₂ then isTrue (by rw [h])
      else isFalse (by intro hh; injection hh; contradiction)
  case vbool.vbool b₁ b₂ =>
    exact if h : b₁ = b₂ then isTrue (by rw [h])
      else isFalse (by intro hh; injection hh; contradiction)
  case vnull.vnull => exact isTrue rfl
  case vundef.vundef => exact isTrue rfl
  case vobj.vobj f₁ f₂ =>
    exact match Value.fieldsDecEq f₁ f₂ with
    | isTrue h => isTrue (by rw [h])
    | isFalse h => isFalse (by intro hh; injection hh; contradiction)
  case varr.varr l₁ l₂ =>
    exact match Value.listDecEq l₁ l₂ with
    | isTrue h => isTrue (by rw [h])
    | isFalse h => isFalse (by intro hh; injection hh; contradiction)

/-- Decidable equality of value lists, mutually with `Value.decEq`. -/
def Value.listDecEq (a b : List Value) : Decidable (a = b) := by
  cases a <;> cases b <;> try { apply isFalse; intro h; injection h }
  case nil.nil => exact isTrue rfl
  case cons.cons x xs y ys =>
    exact match Value.decEq x y, Value.listDecEq xs ys with
    | isTrue h₁, isTrue h₂ => isTrue (by rw [h₁, h₂])
    | isFalse h₁, _ => isFalse (by intro hh; injection hh; contradiction)
    | _, isFalse h₂ => isFalse (by intro hh; injection hh; contradiction)

/-- Decidable equality of field lists, mutually with `Value.decEq`. -/
def Value.fieldsDecEq (a b : List (String × Value)) : Decidable (a = b) := by
  cases a <;> cases b <;> try { apply isFalse; intro h; injection h }
  case nil.nil => exact isTrue rfl
  case cons.cons x xs y ys =>
    exact if h₁ : x.1 = y.1 then
      match Value.decEq x.2 y.2, Value.fieldsDecEq xs ys with
      | isTrue h₂, isTrue h₃ => isTrue (by
          rw [show x = y from Prod.ext h₁ h₂, h₃])
      | isFalse h₂, _ => isFalse (by
          intro hh; injection hh with hx hr; exact h₂ (congrArg Prod.snd hx))
      | _, isFalse h₃ => isFalse (by intro hh; injection hh; contradiction)
    else isFalse (by
      intro hh; injection hh with hx hr; exact h₁ (congrArg Prod.fst hx))

end

instance : DecidableEq Value := Value.decEq

/-- First-match lookup in an insertion-ordered association list: the model of
`Map.get` / object property access for string keys. -/
def mapGet {α : Type} (m : List (String × α)) (k : String) : Option α :=
  match m with
  | [] => none
  | (k₂, v) :: rest => if k₂ = k then some v else mapGet rest k

/-- Model of `Map.set` / JS property assignment: an existing key keeps its
position and gets the new value, a new key is appended. -/
def mapSet {α : Type} (m : List (String × α)) (k : String) (v : α) : List (String × α) :=
  match m with
  | [] => [(k, v)]
  | (k₂, w) :: rest => if k₂ = k then (k₂, v) :: rest else (k₂, w) :: mapSet rest k v

/-- Model of the JS `delete obj[k]` operator (object keys are unique, so
removing every occurrence coincides with removing the one binding). -/
def mapDelete {α : Type} (m : List (String × α)) (k : String) : List (String × α) :=
  m.filter (fun kv => kv.1 != k)

/-- Lookup in a list keyed by arbitrary `Value`s (IndexedDB rows keyed by the
`__pkey__` value). -/
def rowsGet (m : List (Value × Value)) (k : Value) : Option Value :=
  match m with
  | [] => none
  | (k₂, v) :: rest => if k₂ = k then some v else rowsGet rest k

/-- Insert-or-replace for `Value`-keyed rows: the model of `IDBObjectStore.put`
on a store whose `keyPath` is `__pkey__`. -/
def rowsPut (m : List (Value × Value)) (k : Value) (v : Value) : List (Value × Value) :=
  match m with
  | [] => [(k, v)]
  | (k₂, w) :: rest => if k₂ = k then (k₂, v) :: rest else (k₂, w) :: rowsPut rest k v

/-- Delete-by-key for `Value`-keyed rows: the model of
`IDBObjectStore.delete`, which succeeds whether or not the key is present. -/
def rowsDelete (m : List (Value × Value)) (k : Value) : List (Value × Value) :=
  m.filter (fun kv => decide (kv.1 ≠ k))

/-- The internal primary-key tag field (`TtPersistenceDatabaseService.idKey`). -/
def idKey : String := "__pkey__"

/-- The internal origin-store tag field
(`TtPersistenceDatabaseService.storeKey`). -/
def storeKey : String := "__store__"

/-- JS `typeof v === 'object'`: true for plain objects, arrays and `null`. -/
def typeofObject : Value → Bool
  | .vobj _ => true
  | .varr _ => true
  | .vnull => true
  | _ => false

/-- JS truthiness of a value. -/
def jsTruthy : Value → Bool
  | .vstr s => s ≠ ""
  | .vnum n => n ≠ 0
  | .vbool b => b
  | .vnull => false
  | .vundef => false
  | .vobj _ => true
  | .varr _ => true

/-- Whether a value is a JS string (`typeof v === 'string'`). -/
def isStr : Value → Bool
  | .vstr _ => true
  | _ => false

/-- Digit-string to number (kernel-reducing replacement for the string
library's parser). -/
def digitsToNat : List Char → Option Nat
  | [] => none
  | cs => cs.foldl (fun acc c =>
      match acc with
      | none => none
      | some n => if c.isDigit then some (n * 10 + (c.toNat - 48)) else none)
      (some 0)

/-- Canonical numeric-index reading of a property key, as used by JS arrays
and boxed strings ("0", "1", ... without leading zeros). -/
def numericIndex (k : String) : Option Nat :=
  match digitsToNat k.toList with
  | some n => if k = toString n then some n else none
  | none => none

/-- Model of `v.hasOwnProperty(k)`.  Objects look the key up; arrays and boxed
strings own their numeric indices and `length`; other primitives own nothing
(`null`/`undefined` would throw in JS — the sources only reach this test on
defined receivers). -/
def jsHasOwn (v : Value) (k : String) : Bool :=
  match v with
  | .vobj fs => (mapGet fs k).isSome
  | .varr xs => k = "length" || (match numericIndex k with
      | some i => i < xs.length
      | none => false)
  | .vstr s => k = "length" || (match numericIndex k with
      | some i => i < s.length
      | none => false)
  | _ => false

/-- Model of property access `v[k]`, `undefined` when absent. -/
def jsGetPropD (v : Value) (k : String) : Value :=
  match v with
  | .vobj fs => (mapGet fs k).getD .vundef
  | .varr xs =>
      if k = "length" then .vnum xs.length
      else match numericIndex k with
        | some i => (xs.get? i).getD .vundef
        | none => .vundef
  | .vstr s =>
      if k = "length" then .vnum s.length
      else match numericIndex k with
        | some i => (s.toList.get? i).map (fun c => Value.vstr (String.mk [c])) |>.getD .vundef
        | none => .vundef
  | _ => (.vundef)

/-- Own enumerable properties of a value, as copied by `Object.assign({}, v)`
and by object spread: objects yield their fields, arrays and strings their
index properties (`length` is not enumerable), other primitives nothing
(`null`/`undefined` sources are ignored by `Object.assign`). -/
def objAssignFields : Value → List (String × Value)
  | .vobj fs => fs
  | .varr xs => (xs.enum.map (fun p => (toString p.1, p.2)))
  | .vstr s => (s.toList.enum.map (fun p => (toString p.1, Value.vstr (String.mk [p.2]))))
  | _ => []

/-- Keys of `Object.keys(v)` for an object (the read pipeline only calls it on
rows, which are objects; other values yield no keys here). -/
def objKeys : Value → List String
  | .vobj fs => fs.map Prod.fst
  | _ => []

/-- Model of `asArray` (`as-array.function.ts`): wrap non-arrays in a
singleton list. -/
def asArray : Value → List Value
  | .varr xs => xs
  | v => [v]

mutual

/-- JS `String(v)` coercion, as far as the persistence code exercises it
(arrays join their elements with commas, objects print as
`[object Object]`). -/
def jsString : Value → String
  | .vstr s => s
  | .vnum n => toString n
  | .vbool b => if b then "true" else "false"
  | .vnull => "null"
  | .vundef => "undefined"
  | .vobj _ => "[object Object]"
  | .varr xs => jsStringList xs

/-- Comma-joined coercion of array elements (JS `Array.prototype.toString`). -/
def jsStringList : List Value → String
  | [] => ""
  | [x] => jsString x
  | x :: y :: rest => jsString x ++ "," ++ jsStringList (y :: rest)

end

/-- Hexadecimal digit test, the character class `[\da-fA-F]` of the UUID
regular expression in `TtPersistenceDatabaseService`. -/
def isHexDigit (c : Char) : Bool :=
  c.isDigit || (97 ≤ c.toNat && c.toNat ≤ 102) || (65 ≤ c.toNat && c.toNat ≤ 70)

/-- Consume exactly `n` hex digits from the character list, returning the
digits and the remainder. -/
def takeHexGroup : Nat → List Char → Option (List Char × List Char)
  | 0, rest => some ([], rest)
  | _ + 1, [] => none
  | n + 1, c :: rest =>
      if isHexDigit c then
        match takeHexGroup n rest with
        | some (g, r) => some (c :: g, r)
        | none => none
      else none

/-- Try to match the UUID pattern `8-4-4-4-12` hex digits, dash separated, at
the head of the character list (the `\b` boundaries of the source pattern are
implied by the following literal dashes, and the `i` flag by the character
class already covering both cases). -/
def uuidAt (cs : List Char) : Option (List Char) :=
  match takeHexGroup 8 cs with
  | none => none
  | some (g1, r1) =>
    match r1 with
    | '-' :: r1b =>
      match takeHexGroup 4 r1b with
      | none => none
      | some (g2, r2) =>
        match r2 with
        | '-' :: r2b =>
          match takeHexGroup 4 r2b with
          | none => none
          | some (g3, r3) =>
            match r3 with
            | '-' :: r3b =>
              match takeHexGroup 4 r3b with
              | none => none
              | some (g4, r4) =>
                match r4 with
                | '-' :: r4b =>
                  match takeHexGroup 12 r4b with
                  | none => none
                  | some (g5, _) =>
                    some (g1 ++ '-' :: g2 ++ '-' :: g3 ++ '-' :: g4 ++ '-' :: g5)
                | _ => none
            | _ => none
        | _ => none
    | _ => none

/-- Leftmost match of the UUID pattern in a character list, the semantics of
`String.prototype.match` with the source's non-global UUID regular
expression. -/
def findUuid : List Char → Option (List Char)
  | [] => none
  | c :: rest =>
    match uuidAt (c :: rest) with
    | some g => some g
    | none => findUuid rest

/-- Model of `TtPersistenceDatabaseService.extractUuid`: coerce the id to a
string, return the first UUID-shaped substring, or the original value when
there is none (`(String(id).match(...) ?? [])[0] ?? id`). -/
def extractUuid (id : Value) : Value :=
  match findUuid (jsString id).toList with
  | some g => .vstr (String.mk g)
  | none => id


/-- The cascade policies of `TtDeleteCascade` (`tt-delete-cascade.enum.ts`). -/
inductive TtDeleteCascade : Type where
  | null
  | undefined
  | delete
  | keep
deriving Repr, DecidableEq, Inhabited

/-- Model of `TtPersistenceOptions`.  The fields not consulted by the
operations modelled here (`uniqueKeys`, `storeContent`, `triggers`) are
omitted; `linkedKeys` is the recursive map of property name to nested
options. -/
inductive TtPersistenceOptions : Type where
  | mk : String → String → List (String × TtPersistenceOptions) →
      Option TtDeleteCascade → TtPersistenceOptions

/-- The target objectStore name of an options record. -/
def TtPersistenceOptions.storeName : TtPersistenceOptions → String
  | .mk s _ _ _ => s

/-- The declared primary-key source property of an options record. -/
def TtPersistenceOptions.primaryKey : TtPersistenceOptions → String
  | .mk _ k _ _ => k

/-- The declared linked-key map of an options record. -/
def TtPersistenceOptions.linkedKeys :
    TtPersistenceOptions → List (String × TtPersistenceOptions)
  | .mk _ _ l _ => l

/-- The declared cascade policy of an options record. -/
def TtPersistenceOptions.cascade : TtPersistenceOptions → Option TtDeleteCascade
  | .mk _ _ _ c => c

/-- In-memory link map: store name to (property name to linked store name),
the `LinkMap` of `shared.type.ts`. -/
abbrev LinkMap : Type := List (String × List (String × String))

/-- In-memory options map: store name to `TtPersistenceOptions`. -/
abbrev OptionsMap : Type := List (String × TtPersistenceOptions)

/-- Queue of rows to be written, per store: the `QueueMap` of
`shared.type.ts`. -/
abbrev QueueMap : Type := List (String × List Value)

/-- Rows of one objectStore, keyed by the `__pkey__` value. -/
abbrev Rows : Type := List (Value × Value)

/-- The open IndexedDB database: its objectStores with their rows.  (IndexedDB
enumerates rows in key order; the claims below never depend on enumeration
order, so insertion order is kept.) -/
abbrev Database : Type := List (String × Rows)

mutual

/-- Model of `TtPersistenceDatabaseService.flattenPersistenceLinkOptions`:
record the options for the store if absent, then walk the declared
`linkedKeys` recursively, adding one link-map edge per property.  The
recursion over the options tree is bounded by `fuel`, consumed one unit per
step so the definition reduces (the source recursion is structural on the
options).  (The source's trigger-map update is omitted: triggers are not
consulted by the modelled operations.) -/
def flattenPersistenceLinkOptions :
    Nat → TtPersistenceOptions → (OptionsMap × LinkMap) → OptionsMap × LinkMap
  | 0, _, st => st
  | fuel + 1, options, st =>
    match options with
    | .mk sn pk lks casc =>
      let om := st.1
      let om₁ := if (mapGet om sn).isSome then om
        else mapSet om sn (.mk sn pk lks casc)
      flattenLinkedKeyList fuel sn lks (om₁, st.2)

/-- Walk of one `linkedKeys` map inside
`flattenPersistenceLinkOptions`: each property adds an edge to the link map
(re-reading the store's property map each step, as the source mutates the
shared map object) and recurses into the nested options. -/
def flattenLinkedKeyList :
    Nat → String → List (String × TtPersistenceOptions) →
    (OptionsMap × LinkMap) → OptionsMap × LinkMap
  | 0, _, _, st => st
  | fuel + 1, storeName, links, st =>
    match links with
    | [] => st
    | (property, linkOptions) :: rest =>
      let propertyMap := (mapGet st.2 storeName).getD []
      let lm₁ := mapSet st.2 storeName
        (mapSet propertyMap property linkOptions.storeName)
      let st₁ := flattenPersistenceLinkOptions fuel linkOptions (st.1, lm₁)
      flattenLinkedKeyList fuel storeName rest st₁

end

/-- Model of `TtPersistenceDatabaseService.updatePersistenceSettings`, reduced
to the state the claims consult: the link map gains this options tree's edges
and the options map records the options (the version counter, mutation lists,
trigger set and the localStorage serialization round-trip are omitted; the
serialization only strips `linkedKeys`, which the modelled pipeline reads
from the freshly registered record). -/
def updatePersistenceSettings (fuel : Nat) (options : TtPersistenceOptions)
    (st : OptionsMap × LinkMap) : OptionsMap × LinkMap :=
  let st₁ := flattenPersistenceLinkOptions fuel options st
  (mapSet st₁.1 options.storeName options, st₁.2)


/-- The registered primary-key property of a store (`optionsMap.get(name)` is
asserted non-null by the sources; an unregistered store here yields the empty
key, a state the registration paths never produce). -/
def primaryKeyOf (om : OptionsMap) (storeName : String) : String :=
  match mapGet om storeName with
  | some o => o.primaryKey
  | none => ""

/-- The duplicate filter at the end of
`TtPersistenceStoreService.parseContentForLinking`: keep the first item for
each raw primary-key property value (`idSet` of raw `checkMe[primaryKey]`
values; the JS `Set` uses SameValueZero, modelled structurally — identical
for the primitive keys the engine works with). -/
def filterDupes (primaryKey : String) (seen : List Value) :
    List Value → List Value
  | [] => []
  | x :: xs =>
    let checkId := jsGetPropD x primaryKey
    if checkId ∈ seen then filterDupes primaryKey seen xs
    else x :: filterDupes primaryKey (checkId :: seen) xs

mutual

/-- Model of `TtPersistenceStoreService.parseContentForLinking`: extract all
linked items of the content into the queue map, then store the
first-occurrence-deduplicated concatenation of the store's current queue and
the parsed content under the store's name.  Every recursive step of the
group consumes one unit of `fuel` so the definitions reduce; exhausted fuel
returns the queue unchanged (the source recursion terminates on the acyclic
object graphs it is used on). -/
def parseContentForLinking (lm : LinkMap) (om : OptionsMap) :
    Nat → String → List Value → QueueMap → QueueMap
  | 0, _, _, linkedItems => linkedItems
  | fuel + 1, storeName, contents, linkedItems =>
    let current := (mapGet linkedItems storeName).getD []
    let primaryKey := primaryKeyOf om storeName
    match mapGet lm storeName with
    | none =>
      mapSet linkedItems storeName (filterDupes primaryKey [] (current ++ contents))
    | some linkedToMap =>
      let q₁ := extractLinkedContentList lm om fuel linkedToMap contents linkedItems
      mapSet q₁ storeName (filterDupes primaryKey [] (current ++ contents))

/-- Iteration of `extractLinkedContent` over the content list (the source's
`contents.map (cloneMe => this.extractLinkedContent ...)`; the extraction
returns each item unchanged, so only the queue is threaded). -/
def extractLinkedContentList (lm : LinkMap) (om : OptionsMap) :
    Nat → List (String × String) → List Value → QueueMap → QueueMap
  | 0, _, _, linkedItems => linkedItems
  | fuel + 1, linkedToMap, contents, linkedItems =>
    match contents with
    | [] => linkedItems
    | c :: rest =>
      let q₁ := extractLinkedContent lm om fuel c linkedToMap linkedItems
      extractLinkedContentList lm om fuel linkedToMap rest q₁

/-- Model of `TtPersistenceStoreService.extractLinkedContent`: for each linked
property present on the content with an object-typed value, queue every
nested value that carries a string primary key into the linked store
(arrays element-wise). -/
def extractLinkedContent (lm : LinkMap) (om : OptionsMap) :
    Nat → Value → List (String × String) → QueueMap → QueueMap
  | 0, _, _, linkedItems => linkedItems
  | fuel + 1, content, linkedToMap, linkedItems =>
    match linkedToMap with
    | [] => linkedItems
    | (property, storeName) :: rest =>
      let primaryKey := primaryKeyOf om storeName
      let q₁ :=
        if !(jsHasOwn content property) || !(typeofObject (jsGetPropD content property)) then
          linkedItems
        else
          match jsGetPropD content property with
          | .varr xs => parseNestedItems lm om fuel primaryKey storeName xs linkedItems
          | nested => parseNestedItem lm om fuel primaryKey storeName nested linkedItems
      extractLinkedContent lm om fuel content rest q₁

/-- The `parseContent` helper inside `extractLinkedContent`: skip items whose
primary-key property is absent or not a string, otherwise queue them via
`parseContentForLinking`. -/
def parseNestedItem (lm : LinkMap) (om : OptionsMap) :
    Nat → String → String → Value → QueueMap → QueueMap
  | 0, _, _, _, linkedItems => linkedItems
  | fuel + 1, primaryKey, storeName, item, linkedItems =>
    if !(jsHasOwn item primaryKey) || !(isStr (jsGetPropD item primaryKey)) then
      linkedItems
    else
      parseContentForLinking lm om fuel storeName [item] linkedItems

/-- Element-wise `parseContent` over an array-valued linked property. -/
def parseNestedItems (lm : LinkMap) (om : OptionsMap) :
    Nat → String → String → List Value → QueueMap → QueueMap
  | 0, _, _, _, linkedItems => linkedItems
  | fuel + 1, primaryKey, storeName, items, linkedItems =>
    match items with
    | [] => linkedItems
    | x :: rest =>
      let q₁ := parseNestedItem lm om fuel primaryKey storeName x linkedItems
      parseNestedItems lm om fuel primaryKey storeName rest q₁

end

/-- A valid IndexedDB key among the modelled values (strings and numbers;
`IDBObjectStore.put` throws a synchronous `DataError` for anything else at
the `keyPath`). -/
def validKey : Value → Bool
  | .vstr _ => true
  | .vnum _ => true
  | _ => false

/-- Model of `TtPersistenceStoreService.addIdKeyToContent`: give every item a
`__pkey__` property holding the extracted UUID (or raw value) of its declared
primary-key property, by object spread (`\x7b ...item, [idKey]: idValue \x7d`). -/
def addIdKeyToContent (content : List Value) (primaryKey : String) : List Value :=
  content.map (fun item =>
    let idValue := extractUuid (jsGetPropD item primaryKey)
    Value.vobj (mapSet (objAssignFields item) idKey idValue))

mutual

/-- Model of `TtPersistenceStoreService.addRelationsToContent` on a single
item: clone the item and, for every linked property with an object-typed
value and registered options, replace the nested value(s) by clones tagged
with `__store__` (the linked store) and `__pkey__` (the extracted primary
key), recursing into the linked store's own links.  A non-array linked value
becomes `linksAdded[0]`, which is JS `undefined` when the filter dropped
every candidate (in particular for a `null` value).  Every recursive step
of the group consumes one unit of `fuel`. -/
def addRelationsToContent (lm : LinkMap) (om : OptionsMap) :
    Nat → Value → Option (List (String × String)) → Value
  | 0, content, _ => content
  | _ + 1, content, none => content
  | fuel + 1, content, some linksToMap =>
    if linksToMap.length = 0 then content
    else Value.vobj (relProps lm om fuel (objAssignFields content) linksToMap)

/-- The per-property loop of `addRelationsToContent`, threading the cloned
item's fields. -/
def relProps (lm : LinkMap) (om : OptionsMap) :
    Nat → List (String × Value) → List (String × String) → List (String × Value)
  | 0, item, _ => item
  | fuel + 1, item, links =>
    match links with
    | [] => item
    | (property, linkStore) :: rest =>
      let item₁ :=
        match mapGet om linkStore with
        | none => item
        | some options =>
          if !(jsHasOwn (Value.vobj item) property)
              || !(typeofObject (jsGetPropD (Value.vobj item) property)) then item
          else
            let asUnknown := jsGetPropD (Value.vobj item) property
            let unknowns := asArray asUnknown
            let candidates := unknowns.filter
              (fun dupeMe => typeofObject dupeMe && dupeMe != Value.vnull)
            let linksAdded := relChildren lm om fuel options candidates
            let newValue := match asUnknown with
              | .varr _ => Value.varr linksAdded
              | _ => (linksAdded.get? 0).getD Value.vundef
            mapSet item property newValue
      relProps lm om fuel item₁ rest

/-- The per-child map of `addRelationsToContent`: recurse into the child's
own links on a clone, then tag `__store__` and `__pkey__` (in that order, as
the object literal does). -/
def relChildren (lm : LinkMap) (om : OptionsMap) :
    Nat → TtPersistenceOptions → List Value → List Value
  | 0, _, children => children
  | fuel + 1, options, children =>
    match children with
    | [] => []
    | dupeMe :: rest =>
      let moreLinks := mapGet lm options.storeName
      let recursed := addRelationsToContent lm om fuel
        (Value.vobj (objAssignFields dupeMe)) moreLinks
      let tagged := Value.vobj (mapSet
        (mapSet (objAssignFields recursed) storeKey (Value.vstr options.storeName))
        idKey (extractUuid (jsGetPropD dupeMe options.primaryKey)))
      tagged :: relChildren lm om fuel options rest

end

/-- Array-or-single entry point of `addRelationsToContent` as used by
`createQueueObservable` (the queued content is always a list there). -/
def addRelationsToContentList (lm : LinkMap) (om : OptionsMap) (fuel : Nat)
    (content : List Value) (linksToMap : Option (List (String × String))) :
    List Value :=
  content.map (fun c => addRelationsToContent lm om fuel c linksToMap)

/-- The observable outcome of one `createQueueObservable` subscription. -/
inductive QueueEmit : Type where
  | emitted : List (Value × Value) → QueueEmit
  | hanged : QueueEmit
  | dataError : QueueEmit
deriving Repr, DecidableEq

/-- Full effect of one `createQueueObservable` run: the committed rows of the
store, the messages collected by the per-request error handlers, whether the
aggregating `IndexedDBAddError` was raised, and what the observable did. -/
structure QueueOutcome : Type where
  rows : Rows
  errors : List String
  raisedAggregate : Bool
  emit : QueueEmit
deriving Repr, DecidableEq

/-- One put request's engine verdict: `none` means the row write succeeds,
`some msg` means the storage engine fails it with that message (for example a
uniqueness-constraint violation).  The storage engine is an external
collaborator, so its per-row verdict is a parameter of the model. -/
abbrev EngineFail : Type := Value → Option String

/-- Model of `TtPersistenceStoreService.createQueueObservable`, including the
deterministic event-loop order of IndexedDB callbacks:

Phase 1 (synchronous subscription body): the loop issues `store.put(item)`
for every parsed item and records each item in `updated`.  A put whose
`__pkey__` is not a valid key throws a `DataError` synchronously, aborting
the loop (and erroring the observable); the previously issued requests still
run to completion.  On the last iteration the loop checks `errors.length` —
but no request callback has run yet at that point (request events are
delivered only after the synchronous body returns), so the check always sees
an empty list and the `IndexedDBAddError` branch is unreachable; the success
handler is attached to the last request instead.

Phase 2 (event delivery, in request order): each failed request's `onerror`
pushes its message and deletes the item from `updated` (the handler also
calls `preventDefault`, so the transaction is not aborted and earlier
successful puts stay committed); each successful put updates the store.  The
observable emits `updated` when the last request succeeds; if the last
request failed, nothing ever emits. -/
def createQueueObservable (lm : LinkMap) (om : OptionsMap) (fuel : Nat)
    (storeName : String) (rows : Rows) (content : List Value)
    (engineFail : EngineFail) : QueueOutcome :=
  let link := mapGet lm storeName
  let parsed := addRelationsToContentList lm om fuel content link
  -- phase 1: requests issued up to (excluding) the first invalid-key put
  let issued := parsed.takeWhile (fun item => validKey (jsGetPropD item idKey))
  let threw := issued.length < parsed.length
  -- the synchronous aggregation check: no events delivered yet
  let errorsAtCheck : List String := []
  let raisedAggregate := !errorsAtCheck.isEmpty
  -- phase 2: committed rows and error messages, in request order
  let rows₁ := issued.foldl (fun r item =>
    match engineFail item with
    | none => rowsPut r (jsGetPropD item idKey) item
    | some _ => r) rows
  let errors := issued.filterMap engineFail
  let updatedAll := issued.foldl (fun u item =>
    rowsPut u (jsGetPropD item idKey) item) []
  let updated := issued.foldl (fun u item =>
    match engineFail item with
    | none => u
    | some _ => rowsDelete u (jsGetPropD item idKey)) updatedAll
  let emit :=
    if threw then QueueEmit.dataError
    else match issued.getLast? with
      | none => QueueEmit.hanged
      | some last =>
        match engineFail last with
        | none => QueueEmit.emitted updated
        | some _ => QueueEmit.hanged
  QueueOutcome.mk rows₁ errors raisedAggregate emit


/-- Decidable equality for `Except` results over decidable components (not
derived in core). -/
instance {ε α : Type} [DecidableEq ε] [DecidableEq α] :
    DecidableEq (Except ε α) := fun a b => by
  cases a <;> cases b <;> try { apply isFalse; intro h; injection h }
  case error.error e₁ e₂ =>
    exact if h : e₁ = e₂ then isTrue (by rw [h])
      else isFalse (by intro hh; injection hh; contradiction)
  case ok.ok v₁ v₂ =>
    exact if h : v₁ = v₂ then isTrue (by rw [h])
      else isFalse (by intro hh; injection hh; contradiction)

/-- The faults surfaced by the modelled pipelines. -/
inductive StoreFault : Type where
  | notFoundError : String → StoreFault
  | dataError : String → StoreFault
  | addError : String → List String → StoreFault
  | hang : StoreFault
  | typeErrorJoin : StoreFault
  | typeErrorOptions : StoreFault
  | typeErrorKeys : StoreFault
  | noPrimaryKeyInObject : String → String → StoreFault
  | noPrimaryKeyInSettings : String → StoreFault
deriving Repr, DecidableEq

/-- The store-by-store chain inside `insertLinkedItemsInStores` /
`createBatchInsertObservable`: per store, `addIdKeyToContent` then the queue
observable; its committed rows replace the store's rows in the database. -/
def insertStoresLoop (lm : LinkMap) (om : OptionsMap) (fuel : Nat)
    (db : Database) (queuedItems : QueueMap) (engineFail : EngineFail)
    (added : List (String × Rows)) :
    Database × Except StoreFault (List (String × Rows)) :=
  match queuedItems with
  | [] => (db, .ok added)
  | (storeName, content) :: rest =>
    let primaryKey := primaryKeyOf om storeName
    let items := addIdKeyToContent content primaryKey
    let rows := (mapGet db storeName).getD []
    let outcome := createQueueObservable lm om fuel storeName rows items engineFail
    let db₁ := mapSet db storeName outcome.rows
    match outcome.emit with
    | .dataError => (db₁, .error (.dataError storeName))
    | .hanged => (db₁, .error .hang)
    | .emitted updated =>
      insertStoresLoop lm om fuel db₁ rest engineFail (added ++ [(storeName, updated)])

/-- Model of `TtPersistenceStoreService.insertLinkedItemsInStores`: one
`readwrite` transaction over every queued store (`database.transaction`
throws a `NotFoundError` when a store is missing), then the chained
per-store batch inserts of `createBatchInsertObservable` in queue order.
The returned pair keeps the committed database (transactions are not rolled
back) next to the observable outcome; a store whose queue observable errors
or hangs stops the chain. -/
def insertLinkedItemsInStores (lm : LinkMap) (om : OptionsMap) (fuel : Nat)
    (db : Database) (queuedItems : QueueMap) (engineFail : EngineFail) :
    Database × Except StoreFault (List (String × Rows)) :=
  match queuedItems.find? (fun sq => (mapGet db sq.1).isNone) with
  | some sq => (db, .error (.notFoundError sq.1))
  | none => insertStoresLoop lm om fuel db queuedItems engineFail []

/-- Model of the objectStore structure upgrade driven by one persist call
(`createOrUpdateObjectStores` / `handleObjectStoreUpdates`): every queued
store that the database lacks is created empty, and a queued store that
already exists and is listed in the pending `mutations.update` (the persist
call's own target store) is deleted and recreated empty ("unceremoniously
yeeted") before the insert transaction runs. -/
def initializeStores (db : Database) (queuedItems : QueueMap)
    (updates : List String) : Database :=
  queuedItems.foldl (fun d sq =>
    match mapGet d sq.1 with
    | none => d ++ [(sq.1, [])]
    | some _ => if sq.1 ∈ updates then mapSet d sq.1 [] else d) db

/-- Model of `TtPersistenceService.persist` with content retention on: update
the settings (options map and link map), parse the content into the queue
map, run the structure upgrade, and insert every queued store's rows in one
transaction.  Returns the new settings, the committed database and the
insert outcome. -/
def persist (st : OptionsMap × LinkMap) (fuel : Nat) (db : Database)
    (content : List Value) (options : TtPersistenceOptions)
    (engineFail : EngineFail) :
    (OptionsMap × LinkMap) × Database × Except StoreFault (List (String × Rows)) :=
  let st₁ := updatePersistenceSettings fuel options st
  let queue := parseContentForLinking st₁.2 st₁.1 fuel options.storeName content []
  let db₁ := initializeStores db queue [options.storeName]
  let res := insertLinkedItemsInStores st₁.2 st₁.1 fuel db₁ queue engineFail
  (st₁, res)

/-- An engine that fails no row write: the happy-path storage engine. -/
def noEngineFail : EngineFail := fun _ => none

mutual

/-- Model of
`TtPersistenceDatabaseService.removeGeneratedIdKeyFromContent`: arrays map
`cleanNested` over their elements, everything else goes through `cleanNested`
directly.  Every recursive step of the group consumes one unit of `fuel` so
the definitions reduce (the source recursion is structural on the value). -/
def removeGeneratedIdKeyFromContent : Nat → Value → Value
  | 0, content => content
  | fuel + 1, content =>
    match content with
    | .varr items => .varr (cleanNestedList fuel items)
    | other => cleanNested fuel other

/-- Element-wise `cleanNested` over an array (`content.map (item =>
cleanNested(item))`). -/
def cleanNestedList : Nat → List Value → List Value
  | 0, items => items
  | fuel + 1, items =>
    match items with
    | [] => []
    | x :: rest => cleanNested fuel x :: cleanNestedList fuel rest

/-- The `cleanNested` closure of `removeGeneratedIdKeyFromContent`: copy the
value's own enumerable properties (`Object.assign(\x7b\x7d, item)` — note that for
a primitive string this copies its index properties, and for a number or
boolean nothing at all), recurse into array- or object-valued properties,
then delete the `__pkey__` and `__store__` keys from the copy. -/
def cleanNested : Nat → Value → Value
  | 0, item => item
  | fuel + 1, item =>
    let removed := objAssignFields item
    let processed := cleanFields fuel removed
    .vobj (mapDelete (mapDelete processed idKey) storeKey)

/-- The key loop of `cleanNested`: a property whose value is an array, or an
object-typed truthy value (which excludes `null`), is replaced by the cleaned
value. -/
def cleanFields : Nat → List (String × Value) → List (String × Value)
  | 0, fields => fields
  | fuel + 1, fields =>
    match fields with
    | [] => []
    | (k, v) :: rest =>
      let v₁ := match v with
        | .varr _ => removeGeneratedIdKeyFromContent fuel v
        | _ => if typeofObject v && jsTruthy v then removeGeneratedIdKeyFromContent fuel v else v
      (k, v₁) :: cleanFields fuel rest

end

/-- The linked-result operators collected by
`TtPersistenceRetrieveService.createLinkedResultObservable` before piping:
one `(linked store, property, gpsId, array?)` per re-attachment.  For an
array-valued linked property one operator is pushed per element carrying a
string `__pkey__`; for a single object the `__pkey__` must be truthy. -/
def collectLinkedOps (om : OptionsMap) (linkMap : List (String × String))
    (result : Value) : List (String × String × Value × Bool) :=
  linkMap.foldl (fun acc pr =>
    let property := pr.1
    let store := pr.2
    let storeName₂ := match mapGet om store with
      | some o => o.storeName
      | none => store
    if !(jsHasOwn result property) || !(typeofObject (jsGetPropD result property)) then acc
    else match jsGetPropD result property with
      | .varr xs =>
          acc ++ ((xs.filter (fun l => isStr (jsGetPropD l idKey))).map
            (fun l => (storeName₂, property, jsGetPropD l idKey, true)))
      | linkedObject =>
          let gpsId := jsGetPropD linkedObject idKey
          if !(jsTruthy gpsId) then acc
          else acc ++ [(storeName₂, property, gpsId, false)]) []

mutual

/-- Model of `TtPersistenceRetrieveService.createResultObservable` (primary
key path; the index-range variant is not exercised by the claims):
`store.get(primaryKey)` on the named store, then — because the source calls
`Object.keys(request.result)` unconditionally — a missing row throws a
`TypeError`; an empty row object becomes `undefined`; the found row flows
into the linked-result resolution.  Every recursive step of the group
consumes one unit of `fuel` (the source recursion follows the assumed
acyclic link graph). -/
def createResultObservable (lm : LinkMap) (om : OptionsMap) :
    Nat → Database → String → Value → Except StoreFault Value
  | 0, _, _, _ => .error .hang
  | fuel + 1, db, storeName, primaryKey =>
    match mapGet db storeName with
    | none => .error (.notFoundError storeName)
    | some rows =>
      match rowsGet rows primaryKey with
      | none => .error .typeErrorKeys
      | some r =>
        let v := if (objKeys r).length ≠ 0 then r else .vundef
        createLinkedResultObservable lm om fuel db storeName v

/-- Model of `TtPersistenceRetrieveService.createLinkedResultObservable`:
with no links for the store, or an `undefined` result, pass the result
through; otherwise collect the re-attachment operators and apply them in
order. -/
def createLinkedResultObservable (lm : LinkMap) (om : OptionsMap) :
    Nat → Database → String → Value → Except StoreFault Value
  | 0, _, _, result => .ok result
  | fuel + 1, db, storeName, result =>
    let linkMap := (mapGet lm storeName).getD []
    if linkMap.length = 0 || result == Value.vundef then .ok result
    else applyLinkedOps lm om fuel db (collectLinkedOps om linkMap result) result

/-- Model of the chained `createLinkedResultOperator` mergeMaps: each
operator fetches the linked row (recursively resolving its own links) and
splices it into the current object — replacing the property for a single
link, but appending to the property's current array value for an array link
(`[...(current[property] ?? []), linked]`). -/
def applyLinkedOps (lm : LinkMap) (om : OptionsMap) :
    Nat → Database → List (String × String × Value × Bool) → Value →
    Except StoreFault Value
  | 0, _, _, current => .ok current
  | fuel + 1, db, ops, current =>
    match ops with
    | [] => .ok current
    | (store, property, gpsId, isArr) :: rest =>
      match createResultObservable lm om fuel db store gpsId with
      | .error e => .error e
      | .ok linked =>
        let current₁ :=
          if isArr then
            let old := match jsGetPropD current property with
              | .varr xs => xs
              | _ => []
            Value.vobj (mapSet (objAssignFields current) property
              (Value.varr (old ++ [linked])))
          else Value.vobj (mapSet (objAssignFields current) property linked)
        applyLinkedOps lm om fuel db rest current₁

end

/-- The chained rest of `getContentById`. -/
def getContentByIdRest (lm : LinkMap) (om : OptionsMap) (fuel : Nat)
    (db : Database) (storeName : String) (gpsIds : List Value)
    (acc : List Value) : Except StoreFault (List Value) :=
  match gpsIds with
  | [] => .ok acc
  | k :: rest =>
    match createResultObservable lm om fuel db storeName k with
    | .error e => .error e
    | .ok r => getContentByIdRest lm om fuel db storeName rest (acc ++ asArray r)

/-- Model of `TtPersistenceRetrieveService.getContentById`: one
`createResultObservable` per requested key, results concatenated via
`asArray` (an empty key list would dereference `gpsIds[0]` as `undefined`
and make `store.get` throw a `DataError`). -/
def getContentById (lm : LinkMap) (om : OptionsMap) (fuel : Nat)
    (db : Database) (storeName : String) (gpsIds : List Value) :
    Except StoreFault (List Value) :=
  match gpsIds with
  | [] => .error (.dataError storeName)
  | first :: rest =>
    match createResultObservable lm om fuel db storeName first with
    | .error e => .error e
    | .ok r => getContentByIdRest lm om fuel db storeName rest (asArray r)

/-- Model of `TtPersistenceService.get` for a by-key request with a single
string primary key: fetch by key, strip the internal tags from the result
array, and unwrap the first element (`cleaned[0]`) because the requested
`primaryKeys` was a single string. -/
def serviceGetByKey (lm : LinkMap) (om : OptionsMap) (fuel : Nat)
    (db : Database) (storeName : String) (key : String) :
    Except StoreFault Value :=
  match getContentById lm om fuel db storeName [Value.vstr key] with
  | .error e => .error e
  | .ok results =>
    let cleaned := removeGeneratedIdKeyFromContent fuel (Value.varr results)
    .ok (match cleaned with
      | .varr xs => (xs.get? 0).getD Value.vundef
      | v => v)

/-- Model of `RetrieveByPageOptions` (`retrieve-options.interface.ts`). -/
structure RetrieveByPageOptions : Type where
  page : Int
  pageSize : Int
  pagination : Option Bool
deriving Repr, DecidableEq

/-- JS `Array.prototype.slice(s, e)`: clamp both relative indices to the
array bounds (negative indices count from the end) and return the elements
in between. -/
def jsSlice {α : Type} (l : List α) (s e : Int) : List α :=
  let len : Int := l.length
  let s₁ := if s < 0 then max (len + s) 0 else min s len
  let e₁ := if e < 0 then max (len + e) 0 else min e len
  (l.drop s₁.toNat).take (e₁ - s₁).toNat

/-- Model of `TtPersistenceRetrieveService.paginateContent`: with
`pagination === false` the content passes through untouched; otherwise, for a
non-negative 0-based start index `(page - 1) * pageSize`, content no longer
than the page size passes through whole and longer content is sliced to the
requested page. -/
def paginateContent {α : Type} (content : List α)
    (options : Option RetrieveByPageOptions) : List α :=
  let start : Int := match options with
    | some o => (o.page - 1) * o.pageSize
    | none => -1
  let stop : Int := match options with
    | some o => start + o.pageSize
    | none => 0
  if (options.bind (fun o => o.pagination)) = some false then content
  else
    match options with
    | none => content
    | some o =>
      if 0 ≤ start then
        if (content.length : Int) ≤ o.pageSize then content
        else jsSlice content start stop
      else content

/-- Model of `RetrieveBySortingOptions` (`retrieve-options.interface.ts`).
The `direction` is kept optional at runtime, as the source defends against
its absence with `options.direction === 'asc'`. -/
structure RetrieveBySortingOptions : Type where
  column : String
  direction : Option String
deriving Repr, DecidableEq

/-- JS `String.prototype.split` with a single-character separator
(kernel-reducing model of the source's `column.split('.')`). -/
def jsSplitChars (sep : Char) : List Char → List String
  | [] => [""]
  | c :: rest =>
    let r := jsSplitChars sep rest
    if c = sep then "" :: r
    else
      match r with
      | [] => [String.mk [c]]
      | x :: xs => String.mk (c :: x.toList) :: xs

/-- JS `s.split(sep)` for one-character separators. -/
def jsSplit (sep : Char) (s : String) : List String :=
  jsSplitChars sep s.toList

/-- Character-level `ToNumber` on a trimmed string: optional sign followed
by digits (`none` is `NaN`; integer literals only — the persistence sources
compare strings and numbers). -/
def strToNumber (cs : List Char) : Option Int :=
  let trimmed := ((cs.dropWhile (fun c => c.isWhitespace)).reverse.dropWhile
    (fun c => c.isWhitespace)).reverse
  match trimmed with
  | [] => some 0
  | '-' :: rest => (digitsToNat rest).map (fun n => -(n : Int))
  | '+' :: rest => (digitsToNat rest).map (fun n => (n : Int))
  | _ => (digitsToNat trimmed).map (fun n => (n : Int))

/-- JS `ToNumber` coercion on the modelled values. -/
def toNumber : Value → Option Int
  | .vnum n => some n
  | .vbool b => some (if b then 1 else 0)
  | .vnull => some 0
  | .vundef => none
  | .vstr s => strToNumber s.toList
  | v => strToNumber (jsString v).toList

/-- JS `a < b`: string comparison when both operands are strings, otherwise
numeric comparison after `ToNumber` (false when either side is `NaN`). -/
def jsLt (a b : Value) : Bool :=
  match a, b with
  | .vstr x, .vstr y => decide (x < y)
  | _, _ =>
    match toNumber a, toNumber b with
    | some x, some y => decide (x < y)
    | _, _ => false

/-- Model of `TtPersistenceRetrieveService.compare`:
`(a < b ? -1 : 1) * (ascending ? 1 : -1)` — note it never returns 0. -/
def compare (a b : Value) (ascending : Bool) : Int :=
  (if jsLt a b then -1 else 1) * (if ascending then 1 else -1)

mutual

/-- Model of `TtPersistenceRetrieveService.getComparisonValue`: walk the
dot-path into the item; an item that does not own the next path segment (in
particular any primitive) is returned itself; an array is scanned for the
first truthy resolved value, falling back to the item itself.  Every
recursive step consumes one unit of `fuel` (the source recursion is
structural on the path). -/
def getComparisonValue : Nat → Value → List String → Value
  | 0, item, _ => item
  | fuel + 1, item, path =>
    match path with
    | [] => item
    | p :: rest =>
      if !(jsHasOwn item p) then item
      else
        let v := jsGetPropD item p
        if rest.length > 0 && typeofObject v then
          match v with
          | .varr xs =>
            match firstTruthyComparison fuel xs rest with
            | some m => m
            | none => item
          | _ => getComparisonValue fuel v rest
        else if rest.length = 0 then v
        else item

/-- The array loop of `getComparisonValue`: the first truthy resolved
value. -/
def firstTruthyComparison : Nat → List Value → List String → Option Value
  | 0, _, _ => none
  | fuel + 1, xs, rest =>
    match xs with
    | [] => none
    | x :: tail =>
      let m := getComparisonValue fuel x rest
      if jsTruthy m then some m else firstTruthyComparison fuel tail rest

end

/-- Model of JS `Array.prototype.sort` with the source comparator: a stable
comparison sort (ECMAScript requires sort stability; elements whose
comparator result is non-positive precede). -/
def jsSortStable (cmp : Value → Value → Int) (l : List Value) : List Value :=
  List.insertionSort (fun a b => cmp a b ≤ 0) l

/-- Model of `TtPersistenceRetrieveService.sortContent`: no column, no sort;
otherwise sort by comparing the values resolved at the dot-split column,
ascending exactly when the direction is the string `asc` (the
last-total-results counter side effect is not modelled; nothing in the
claims reads it). -/
def sortContent (fuel : Nat) (storeName : String) (content : List Value)
    (options : Option RetrieveBySortingOptions) : List Value :=
  match options with
  | none => content
  | some o =>
    if o.column = "" then content
    else
      let column := jsSplit '.' o.column
      jsSortStable (fun a b =>
        compare (getComparisonValue fuel a column) (getComparisonValue fuel b column)
          (o.direction == some "asc")) content

/-- Model of `ParentLink` (`parent-link.interface.ts`), extended with the
`path` of the delete service's internal `ParentDelete`.  `parentStoreName`
and `path` start out absent, exactly as in the source. -/
structure ParentLink : Type where
  storeName : String
  childStoreName : String
  property : String
  idKey : String
  parentStoreName : Option String
  path : Option (List String)
deriving Repr, DecidableEq

/-- Map from parent store name to its `ParentLink`. -/
abbrev ParentLinkMap : Type := List (String × ParentLink)

/-- Model of `TtPersistenceStoreService.updateParentLink`: scan the map for a
link whose child is this link's store and record that parent store name (the
last match wins, as the source loop keeps overwriting). -/
def updateParentLink (link : ParentLink) (parentMap : ParentLinkMap) : ParentLink :=
  parentMap.foldl (fun l entry =>
    if entry.2.childStoreName = l.storeName then
      ParentLink.mk l.storeName l.childStoreName l.property l.idKey (some entry.1) l.path
    else l) link

mutual

/-- Model of `TtPersistenceStoreService.createParentLinkMap`: for every link
edge pointing at the given store, record a `ParentLink` for the parent,
recurse into the parent's own parents, and update the link's
`parentStoreName`.  Every recursive step of the group consumes one unit of
`fuel` (the source recursion follows the assumed acyclic link graph). -/
def createParentLinkMap (lm : LinkMap) (om : OptionsMap) :
    Nat → String → ParentLinkMap → ParentLinkMap
  | 0, _, activeMap => activeMap
  | fuel + 1, storeName, activeMap => cplmStores lm om fuel storeName lm activeMap

/-- The outer loop of `createParentLinkMap` over the link map's entries. -/
def cplmStores (lm : LinkMap) (om : OptionsMap) :
    Nat → String → LinkMap → ParentLinkMap → ParentLinkMap
  | 0, _, _, parentMap => parentMap
  | fuel + 1, storeName, entries, parentMap =>
    match entries with
    | [] => parentMap
    | (parent, linksToMap) :: rest =>
      let pm₁ := cplmProps lm om fuel storeName parent linksToMap parentMap
      cplmStores lm om fuel storeName rest pm₁

/-- The inner loop of `createParentLinkMap` over one parent's link
properties. -/
def cplmProps (lm : LinkMap) (om : OptionsMap) :
    Nat → String → String → List (String × String) → ParentLinkMap →
    ParentLinkMap
  | 0, _, _, _, parentMap => parentMap
  | fuel + 1, storeName, parent, props, parentMap =>
    match props with
    | [] => parentMap
    | (property, linkStore) :: rest =>
      let pm₁ :=
        if linkStore = storeName then
          let link := ParentLink.mk parent storeName property
            (((mapGet om storeName).map (fun o => o.primaryKey)).getD "") none none
          let pmA := mapSet parentMap parent link
          let pmB := createParentLinkMap lm om fuel parent pmA
          mapSet pmB parent (updateParentLink link pmB)
        else parentMap
      cplmProps lm om fuel storeName parent rest pm₁

end

/-- Model of `TtPersistenceDeleteService.createParentDeleteMap`: build the
parent link map, then give each link with a known grandparent its traversal
path — the link's own path defaults to its property, and the grandparent's
path becomes its property followed by the link's path.  A link whose parent
has no grandparent never receives a `path`. -/
def createParentDeleteMap (lm : LinkMap) (om : OptionsMap) (fuel : Nat)
    (storeName : String) : ParentLinkMap :=
  let parentMap := createParentLinkMap lm om fuel storeName []
  (parentMap.map Prod.fst).foldl (fun pm store =>
    match mapGet pm store with
    | none => pm
    | some link =>
      match link.parentStoreName.bind (fun p => (mapGet pm p).map (fun l => (p, l))) with
      | none => pm
      | some (parentName, parent) =>
        let linkPath := link.path.getD [link.property]
        let parentPath := parent.property :: linkPath
        let pm₁ := mapSet pm store
          (ParentLink.mk link.storeName link.childStoreName link.property link.idKey
            link.parentStoreName (some linkPath))
        mapSet pm₁ parentName
          (ParentLink.mk parent.storeName parent.childStoreName parent.property
            parent.idKey parent.parentStoreName (some parentPath))) parentMap

/-- Model of `TtPersistenceDeleteResult`
(`tt-persistence-delete-result.interface.ts`, without the internal transient
`content` set, which the pipeline deletes before returning). -/
structure TtPersistenceDeleteResult : Type where
  storeName : String
  primaryKeys : List Value
  path : String
  type : TtDeleteCascade
deriving Repr, DecidableEq

/-- Model of `TtPersistenceDeleteService.handleCascade` on an object's
fields: `delete` removes the property, `null`/`undefined` overwrite its
value, `keep` matches no case and leaves the object alone; the function
always reports `true`. -/
def handleCascade (item : Value) (property : String) (type : TtDeleteCascade) :
    Value × Bool :=
  match item with
  | .vobj fs =>
    (match type with
      | .delete => (.vobj (mapDelete fs property), true)
      | .null => (.vobj (mapSet fs property .vnull), true)
      | .undefined => (.vobj (mapSet fs property .vundef), true)
      | .keep => (.vobj fs, true))
  | other => (other, true)

/-- Model of `TtPersistenceDeleteService.checkItemRemovalState`: the nested
value (the property's value, or the item itself) must be truthy and its
`__pkey__` must be among the deleted keys. -/
def checkItemRemovalState (item : Value) (primaryKeys : List Value)
    (property : Option String) : Bool :=
  let nested := match property with
    | some p => jsGetPropD item p
    | none => item
  if !(jsTruthy nested) then false
  else decide (jsGetPropD nested idKey ∈ primaryKeys)

/-- Property update on an object value (in-place mutation of the source). -/
def setPropOnValue (item : Value) (p : String) (v : Value) : Value :=
  match item with
  | .vobj fs => .vobj (mapSet fs p v)
  | other => other

mutual

/-- Model of `TtPersistenceDeleteService.traverseItemPath` (the prune-all
walk): follow the path, arrays element-wise, and apply the cascade at the
final segment.  The source mutates in place; the model returns the mutated
item.  Every recursive step consumes one unit of `fuel` (the source
recursion is structural on the path). -/
def traverseItemPath (type : TtDeleteCascade) :
    Nat → List String → Value → Value
  | 0, _, item => item
  | fuel + 1, path, item =>
    match path with
    | [] => item
    | p :: rest =>
      if !(jsHasOwn item p) then item
      else
        let v := jsGetPropD item p
        if rest.length > 0 && typeofObject v then
          match v with
          | .varr xs =>
            setPropOnValue item p (.varr (traverseItemPathList type fuel rest xs))
          | _ => setPropOnValue item p (traverseItemPath type fuel rest v)
        else if rest.length = 0 then (handleCascade item p type).1
        else item

/-- Element-wise `traverseItemPath` over an array along the path. -/
def traverseItemPathList (type : TtDeleteCascade) :
    Nat → List String → List Value → List Value
  | 0, _, xs => xs
  | fuel + 1, rest, xs =>
    match xs with
    | [] => []
    | x :: tail => traverseItemPath type fuel rest x :: traverseItemPathList type fuel rest tail

end

mutual

/-- Model of `TtPersistenceDeleteService.traverseItemPathForId`: like
`traverseItemPath` but only rows whose nested `__pkey__` matches one of the
deleted keys are cascaded; returns the mutated item and whether anything was
adjusted.  (At a final path segment holding an array, the source recurses
with an empty path, which immediately returns `false` — no array element is
ever cascaded there.)  Every recursive step consumes one unit of `fuel`. -/
def traverseItemPathForId (type : TtDeleteCascade) (primaryKeys : List Value) :
    Nat → List String → Value → Value × Bool
  | 0, _, item => (item, false)
  | fuel + 1, path, item =>
    match path with
    | [] => (item, false)
    | p :: rest =>
      if !(jsHasOwn item p) then (item, false)
      else
        let v := jsGetPropD item p
        if rest.length > 0 && typeofObject v then
          match v with
          | .varr xs =>
            let xsc := traverseItemPathForIdList type primaryKeys fuel rest xs
            (setPropOnValue item p (.varr xsc.1), xsc.2)
          | _ =>
            let vc := traverseItemPathForId type primaryKeys fuel rest v
            (setPropOnValue item p vc.1, vc.2)
        else if rest.length = 0 then
          match v with
          | .varr xs =>
            let xsc := traverseFinalArray type primaryKeys fuel xs
            (setPropOnValue item p (.varr xsc.1), xsc.2)
          | _ =>
            if checkItemRemovalState item primaryKeys (some p) then
              handleCascade item p type
            else (item, false)
        else (item, false)

/-- Element-wise `traverseItemPathForId` along the path. -/
def traverseItemPathForIdList (type : TtDeleteCascade)
    (primaryKeys : List Value) :
    Nat → List String → List Value → List Value × Bool
  | 0, _, xs => (xs, false)
  | fuel + 1, rest, xs =>
    match xs with
    | [] => ([], false)
    | x :: tail =>
      let xc := traverseItemPathForId type primaryKeys fuel rest x
      let tc := traverseItemPathForIdList type primaryKeys fuel rest tail
      (xc.1 :: tc.1, xc.2 || tc.2)

/-- The final-segment array loop of `traverseItemPathForId`: matching
elements recurse with the emptied path (`path.slice(1)`), which returns
`false` without mutating. -/
def traverseFinalArray (type : TtDeleteCascade) (primaryKeys : List Value) :
    Nat → List Value → List Value × Bool
  | 0, xs => (xs, false)
  | fuel + 1, xs =>
    match xs with
    | [] => ([], false)
    | x :: tail =>
      let xc :=
        if !(checkItemRemovalState x primaryKeys none) then (x, false)
        else traverseItemPathForId type primaryKeys fuel [] x
      let tc := traverseFinalArray type primaryKeys fuel tail
      (xc.1 :: tc.1, xc.2 || tc.2)

end

/-- Model of `TtPersistenceDeleteService.createPruningObservable`: resolve
the cascade type from the ancestor's registered options (`type ??
options.cascade ?? KEEP`; missing options make `options.cascade` throw), open
a cursor over the ancestor store, and — before scanning — build the
`TtPersistenceDeleteResult` whose `path` field joins `link.path`: a link
whose `path` was never initialised (every ancestor without a grandparent)
throws a `TypeError` here, erroring the observable.  Otherwise every row is
pruned via `handlePruneAll` (no key filter) or `handlePruneById` (matching
rows only), collecting the mutated rows and affected keys. -/
def createPruningObservable (om : OptionsMap) (fuel : Nat) (db : Database)
    (link : ParentLink) (primaryKeys : Option (List Value))
    (type? : Option TtDeleteCascade) :
    Except StoreFault (TtPersistenceDeleteResult × List Value) :=
  match mapGet om link.storeName with
  | none => .error .typeErrorOptions
  | some options =>
    let type := (type?.getD (options.cascade.getD .keep))
    match mapGet db link.storeName with
    | none => .error (.notFoundError link.storeName)
    | some rows =>
      match link.path with
      | none => .error .typeErrorJoin
      | some linkPath =>
        let scanned := rows.foldl (fun acc kv =>
          let item := kv.2
          match primaryKeys with
          | none =>
            let item₁ := traverseItemPath type fuel linkPath item
            (acc.1 ++ [item₁], acc.2 ++ [jsGetPropD item idKey])
          | some keys =>
            let ic := traverseItemPathForId type keys fuel linkPath item
            if ic.2 then (acc.1 ++ [ic.1], acc.2 ++ [jsGetPropD item idKey])
            else acc) (([], []) : List Value × List Value)
        .ok (TtPersistenceDeleteResult.mk link.storeName scanned.2
          (String.intercalate "." linkPath) type, scanned.1)

/-- Model of `TtPersistenceDeleteService.createPruningOperators`: chain one
pruning observable per parent link, accumulating the queue map of rows to
rewrite and the per-store delete results. -/
def createPruningOperators (om : OptionsMap) (fuel : Nat) (db : Database)
    (parents : List ParentLink) (primaryKeys : Option (List Value))
    (type? : Option TtDeleteCascade) (queueMap : QueueMap)
    (results : List TtPersistenceDeleteResult) :
    Except StoreFault (QueueMap × List TtPersistenceDeleteResult) :=
  match parents with
  | [] => .ok (queueMap, results)
  | link :: rest =>
    match createPruningObservable om fuel db link primaryKeys type? with
    | .error e => .error e
    | .ok (deleteResult, content) =>
      createPruningOperators om fuel db rest primaryKeys type?
        (mapSet queueMap link.storeName content) (results ++ [deleteResult])

/-- Model of `TtPersistenceDeleteService.checkAndPruneParents` for the
row-delete path: build the parent delete map, and when it is non-empty run
the pruning operators and re-insert the mutated ancestor rows through
`insertLinkedItemsInStores`; otherwise return the original delete result. -/
def checkAndPruneParents (lm : LinkMap) (om : OptionsMap) (fuel : Nat)
    (db : Database) (storeName : String) (idKeys : List Value)
    (result : TtPersistenceDeleteResult) :
    Database × Except StoreFault (List TtPersistenceDeleteResult) :=
  let deleteMap := createParentDeleteMap lm om fuel storeName
  if deleteMap.length = 0 then (db, .ok [result])
  else
    match createPruningOperators om fuel db (deleteMap.map Prod.snd) (some idKeys)
        none [] [] with
    | .error e => (db, .error e)
    | .ok (queueMap, deleteResults) =>
      let inserted := insertLinkedItemsInStores lm om fuel db queueMap noEngineFail
      match inserted.2 with
      | .error e => (inserted.1, .error e)
      | .ok _ => (inserted.1, .ok deleteResults)

/-- Model of `TtPersistenceDeleteService.deleteContentFromStore` (the
`deleteRows` operation): delete every key from the store inside a
`readwrite` transaction (deleting an absent key succeeds; an empty key list
never reaches the final `onsuccess`, hanging the observable), then prune the
ancestors.  The committed database travels next to the outcome: the row
deletions stay committed even when the pruning phase errors. -/
def deleteContentFromStore (lm : LinkMap) (om : OptionsMap) (fuel : Nat)
    (db : Database) (storeName : String) (idKeys : List Value) :
    Database × Except StoreFault (List TtPersistenceDeleteResult) :=
  match mapGet db storeName with
  | none => (db, .error (.notFoundError storeName))
  | some rows =>
    let rows₁ := idKeys.foldl rowsDelete rows
    let db₁ := mapSet db storeName rows₁
    match idKeys with
    | [] => (db₁, .error .hang)
    | _ =>
      let deleteResult := TtPersistenceDeleteResult.mk storeName idKeys "" .delete
      checkAndPruneParents lm om fuel db₁ storeName idKeys deleteResult

/-- One notification of an observable, for the `clear` trace. -/
inductive Notif : Type where
  | next : Bool → Notif
  | error : StoreFault → Notif
deriving Repr, DecidableEq

/-- Model of `TtPersistenceService.clear`: when the database lacks the store
the subscriber first emits `true` — but the guard does not return, so the
code falls through to `database.transaction(storeName)`, which throws a
`NotFoundError` that errors the observable right after the successful
emission.  On an existing store the rows are cleared and `true` is
emitted. -/
def clear (db : Database) (storeName : String) : List Notif × Database :=
  match mapGet db storeName with
  | none => ([Notif.next true, Notif.error (.notFoundError storeName)], db)
  | some _ => ([Notif.next true], mapSet db storeName [])

/-- Model of `TtPersistenceService.getPrimaryKeyValue` (the `post`/`put`
path): extract the UUID (or raw value) of the primary-key property and throw
`NoPrimaryKeyInObjectError` — which names the store and the offending key —
whenever the result is falsy. -/
def getPrimaryKeyValue (item : Value) (storeName primaryKey : String) :
    Except StoreFault Value :=
  let idValue := extractUuid (jsGetPropD item primaryKey)
  if !(jsTruthy idValue) then .error (.noPrimaryKeyInObject storeName primaryKey)
  else .ok idValue

/-- Model of `TtPersistenceService.createItemWithIdKeyValue`: merge the
generated default fields over the item, resolve the primary-key value (which
may throw), and return the item with `__pkey__` prepended. -/
def createItemWithIdKeyValue (storeName idKeyProp : String) (item : Value)
    (generated : List (String × Value)) : Except StoreFault Value :=
  let combined := Value.vobj (generated.foldl (fun fs kv => mapSet fs kv.1 kv.2)
    (objAssignFields item))
  match getPrimaryKeyValue combined storeName idKeyProp with
  | .error e => .error e
  | .ok idValue =>
    .ok (Value.vobj ((objAssignFields combined).foldl
      (fun fs kv => mapSet fs kv.1 kv.2) [(idKey, idValue)]))

/-- Heap-level values for the aliasing model of
`removeGeneratedIdKeyFromContent`: primitives are immediate, objects and
arrays live behind references. -/
inductive HVal : Type where
  | hstr : String → HVal
  | hnum : Int → HVal
  | hbool : Bool → HVal
  | hnull : HVal
  | hundef : HVal
  | href : Nat → HVal
deriving Repr, DecidableEq

/-- A heap cell: an object's fields or an array's elements. -/
inductive HCell : Type where
  | hobj : List (String × HVal) → HCell
  | harr : List HVal → HCell
deriving Repr, DecidableEq

/-- The JS heap: cells addressed by index; allocation appends. -/
abbrev Heap : Type := List HCell

/-- Allocation of a fresh cell. -/
def halloc (h : Heap) (c : HCell) : Heap × Nat :=
  (h ++ [c], h.length)

/-- Own enumerable fields copied by `Object.assign(\x7b\x7d, item)` at heap level:
an object reference yields its fields, an array reference its index
properties, a primitive string its character index properties, anything else
nothing. -/
def hObjAssignFields (h : Heap) (v : HVal) : List (String × HVal) :=
  match v with
  | .href a =>
    match h.get? a with
    | some (.hobj fs) => fs
    | some (.harr xs) => xs.enum.map (fun p => (toString p.1, p.2))
    | none => []
  | .hstr s => s.toList.enum.map (fun p => (toString p.1, HVal.hstr (String.mk [p.2])))
  | _ => []

/-- Whether a heap value is an array reference (`Array.isArray`). -/
def hIsArray (h : Heap) (v : HVal) : Bool :=
  match v with
  | .href a => match h.get? a with
    | some (.harr _) => true
    | _ => false
  | _ => false

/-- Whether a heap value satisfies `typeof v === 'object' && !!v` without
being an array: a reference to an object cell (`null` is falsy, primitives
are not object-typed). -/
def hIsTruthyObject (h : Heap) (v : HVal) : Bool :=
  match v with
  | .href a => match h.get? a with
    | some (.hobj _) => true
    | _ => false
  | _ => false

/-- In-place update of one field of the object cell at `addr` (the source's
`removed[key] = ...` assignment on the fresh copy). -/
def hwriteField (h : Heap) (addr : Nat) (k : String) (v : HVal) : Heap :=
  match h.get? addr with
  | some (.hobj fs) => h.set addr (.hobj (mapSet fs k v))
  | _ => h

/-- In-place deletion of the `__pkey__` and `__store__` fields of the object
cell at `addr` (the source's two `delete` statements). -/
def hdeleteTags (h : Heap) (addr : Nat) : Heap :=
  match h.get? addr with
  | some (.hobj fs) => h.set addr (.hobj (mapDelete (mapDelete fs idKey) storeKey))
  | _ => h

mutual

/-- Heap-level model of
`TtPersistenceDatabaseService.removeGeneratedIdKeyFromContent`: an array
reference maps `cleanNested` over its elements into a freshly allocated
array; everything else goes through `cleanNested`.  Every recursive step of
the group consumes one unit of `fuel`. -/
def removeGeneratedIdKeyFromContentH : Nat → Heap → HVal → Heap × HVal
  | 0, h, v => (h, v)
  | fuel + 1, h, v =>
    if hIsArray h v then
      match v with
      | .href a =>
        match h.get? a with
        | some (.harr xs) =>
          let hys := cleanNestedListH fuel h xs
          let ha := halloc hys.1 (.harr hys.2)
          (ha.1, .href ha.2)
        | _ => cleanNestedH fuel h v
      | _ => cleanNestedH fuel h v
    else cleanNestedH fuel h v

/-- Element-wise heap `cleanNested` building the fresh array's elements. -/
def cleanNestedListH : Nat → Heap → List HVal → Heap × List HVal
  | 0, h, xs => (h, xs)
  | fuel + 1, h, xs =>
    match xs with
    | [] => (h, [])
    | x :: rest =>
      let hy := cleanNestedH fuel h x
      let hys := cleanNestedListH fuel hy.1 rest
      (hys.1, hy.2 :: hys.2)

/-- Heap-level `cleanNested`: allocate the shallow copy
(`Object.assign(\x7b\x7d, item)`), rewrite its array- or object-valued fields with
cleaned values (writing only to the fresh cell), then delete the internal
tags from the fresh cell. -/
def cleanNestedH : Nat → Heap → HVal → Heap × HVal
  | 0, h, item => (h, item)
  | fuel + 1, h, item =>
    let fs := hObjAssignFields h item
    let ha := halloc h (.hobj fs)
    let h₂ := cleanLoopH fuel ha.1 ha.2 fs
    (hdeleteTags h₂ ha.2, .href ha.2)

/-- The key loop of heap `cleanNested`, iterating the snapshot of the copied
fields and assigning cleaned values into the fresh cell at `addr`. -/
def cleanLoopH : Nat → Heap → Nat → List (String × HVal) → Heap
  | 0, h, _, _ => h
  | fuel + 1, h, addr, fields =>
    match fields with
    | [] => h
    | (k, v) :: rest =>
      let h₁ :=
        if hIsArray h v || hIsTruthyObject h v then
          let hv := removeGeneratedIdKeyFromContentH fuel h v
          hwriteField hv.1 addr k hv.2
        else h
      cleanLoopH fuel h₁ addr rest

end

/-- The Location options of the spec scenario (`storeName: 'Location',
primaryKey: '@id'`). -/
def locationOptions : TtPersistenceOptions := .mk "Location" "@id" [] none

/-- The Person options of the spec scenario, linking `location` to the
Location store. -/
def personOptions : TtPersistenceOptions :=
  .mk "Person" "id" [("location", locationOptions)] none

/-- The Location content of the spec scenario. -/
def locationContent : Value :=
  .vobj [("@id", .vstr "/api/locations/1"), ("name", .vstr "Test")]

/-- The Person content of the spec scenario, embedding the Location. -/
def personContent : Value :=
  .vobj [("id", .vstr "p1"), ("location", locationContent)]

/-- State after persisting the Location content. -/
def scenarioAfterLocation :
    (OptionsMap × LinkMap) × Database × Except StoreFault (List (String × Rows)) :=
  persist ([], []) 20 [] [locationContent] locationOptions noEngineFail

/-- State after then persisting the Person content. -/
def scenarioAfterPerson :
    (OptionsMap × LinkMap) × Database × Except StoreFault (List (String × Rows)) :=
  persist scenarioAfterLocation.1 20 scenarioAfterLocation.2.1 [personContent]
    personOptions noEngineFail

/-- The committed Person row of the scenario. -/
def scenarioPersonRow : Value :=
  (((mapGet scenarioAfterPerson.2.1 "Person").getD []).map Prod.snd).headI

/-- Person options whose cascade policy is `NULL`, for the delete scenario. -/
def personOptionsNull : TtPersistenceOptions :=
  .mk "Person" "id" [("location", .mk "Location" "@id" [] none)] (some .null)

/-- State after persisting Location then Person with the `NULL` cascade. -/
def cascadeScenario :
    (OptionsMap × LinkMap) × Database × Except StoreFault (List (String × Rows)) :=
  let s₁ := persist ([], []) 20 [] [locationContent]
    (TtPersistenceOptions.mk "Location" "@id" [] none) noEngineFail
  persist s₁.1 20 s₁.2.1 [personContent] personOptionsNull noEngineFail

/-- The `deleteRows` call of the cascade scenario: delete the Location row
whose identity the Person row embeds. -/
def cascadeDeleteRun : Database × Except StoreFault (List TtPersistenceDeleteResult) :=
  deleteContentFromStore cascadeScenario.1.2 cascadeScenario.1.1 20
    cascadeScenario.2.1 "Location" [.vstr "/api/locations/1"]

/-- A Person entity whose `tags` property is an array of primitive strings,
and its persisted state — the round-trip counterexample input. -/
def tagsEntity : Value := .vobj [("id", .vstr "p1"), ("tags", .varr [.vstr "ab"])]

/-- State after persisting `tagsEntity` into a store with no linked keys. -/
def tagsScenario :
    (OptionsMap × LinkMap) × Database × Except StoreFault (List (String × Rows)) :=
  persist ([], []) 20 [] [tagsEntity] (TtPersistenceOptions.mk "Person" "id" [] none)
    noEngineFail

/-- The read-back of `tagsEntity` by its primary key. -/
def tagsReadBack : Except StoreFault Value :=
  serviceGetByKey tagsScenario.1.2 tagsScenario.1.1 20 tagsScenario.2.1 "Person" "p1"

/-- A storage engine that rejects exactly the row whose `id` is `b` with a
constraint violation. -/
def failRowB : EngineFail := fun v =>
  if jsGetPropD v "id" == .vstr "b" then some "ConstraintError" else none

/-- The partial-failure queue run: rows `a`, `b`, `c` written to store `S`,
the middle row failing at the engine. -/
def partialFailureRun : QueueOutcome :=
  createQueueObservable [] [("S", .mk "S" "id" [] none)] 5 "S" []
    (addIdKeyToContent [.vobj [("id", .vstr "a")], .vobj [("id", .vstr "b")],
      .vobj [("id", .vstr "c")]] "id") failRowB

/-- Invariant of the linking queue built by `parseContentForLinking`: every
store's entry holds items whose raw primary-key property values are pairwise
distinct. -/
def NodupQueue (om : OptionsMap) (q : QueueMap) : Prop :=
  ∀ st l, mapGet q st = some l →
    (l.map (fun x => jsGetPropD x (primaryKeyOf om st))).Nodup

/-- One heap extends another when every already-allocated cell is preserved
unchanged and only fresh cells are appended. -/
def HeapExtends (h h' : Heap) : Prop :=
  h.length ≤ h'.length ∧ h'.take h.length = h


/-- C1: the spec's round-trip law — reading a persisted entity back by its
primary key returns the entity with only the internal `__pkey__`/`__store__`
tags stripped and every other field intact — fails on the code.  Evaluating
the pipeline at the failing input: the entity with `tags: ["ab"]` reads back
with `tags: [{"0": "a", "1": "b"}]`, because `cleanNested` applies
`Object.assign` to every array element, mangling primitive elements into
character-index objects.  The entity has no tag fields at all, so the claim
demands the read-back equal the entity itself; it does not. -/
theorem c1_roundTrip_failing_input :
    tagsReadBack = .ok (Value.vobj [("id", .vstr "p1"),
      ("tags", .varr [.vobj [("0", .vstr "a"), ("1", .vstr "b")]])])
    ∧ tagsReadBack ≠ .ok tagsEntity := by
  exact ⟨by decide, by decide⟩

/-- C3 counterexample: in the spec scenario the Location collection's single
row carries `__pkey__` `"/api/locations/1"`, not `"1"` as the claim states —
`extractUuid` only extracts UUID-shaped substrings and returns the raw
primary-key value otherwise. -/
theorem c3_scenario_counterexample :
    ((mapGet scenarioAfterPerson.2.1 "Location").getD []).length = 1
    ∧ jsGetPropD ((((mapGet scenarioAfterPerson.2.1 "Location").getD []).map
        Prod.snd).headI) idKey = .vstr "/api/locations/1"
    ∧ (Value.vstr "/api/locations/1") ≠ .vstr "1" := by
  exact ⟨by decide, by decide, by decide⟩

/-- C3 amended: as the counterexample forces, the synthesized identity is the
raw primary-key value `"/api/locations/1"` (no UUID to extract), everywhere
the claim said `"1"`.  With that change the scenario holds: the Location
collection has exactly one row with that `__pkey__`; the Person row's
`location` field before tag-stripping carries exactly the original `@id` and
`name` fields plus the `__store__: "Location"` and
`__pkey__: "/api/locations/1"` tags; and after tag-stripping it is exactly
`{"@id": "/api/locations/1", "name": "Test"}`. -/
theorem c3_scenario_amended :
    (((mapGet scenarioAfterPerson.2.1 "Location").getD []).length = 1
      ∧ jsGetPropD ((((mapGet scenarioAfterPerson.2.1 "Location").getD []).map
          Prod.snd).headI) idKey = .vstr "/api/locations/1")
    ∧ (((mapGet scenarioAfterPerson.2.1 "Person").getD []).length = 1
      ∧ (objKeys (jsGetPropD scenarioPersonRow "location")).length = 4
      ∧ jsGetPropD (jsGetPropD scenarioPersonRow "location") "@id"
          = .vstr "/api/locations/1"
      ∧ jsGetPropD (jsGetPropD scenarioPersonRow "location") "name" = .vstr "Test"
      ∧ jsGetPropD (jsGetPropD scenarioPersonRow "location") storeKey
          = .vstr "Location"
      ∧ jsGetPropD (jsGetPropD scenarioPersonRow "location") idKey
          = .vstr "/api/locations/1")
    ∧ jsGetPropD (removeGeneratedIdKeyFromContent 20 scenarioPersonRow) "location"
        = .vobj [("@id", .vstr "/api/locations/1"), ("name", .vstr "Test")] := by
  exact ⟨⟨by decide, by decide⟩,
    ⟨by decide, by decide, by decide, by decide, by decide, by decide⟩, by decide⟩

/-- C4: the claimed cascade semantics of `deleteRows` fail on the code.  At
the failing input — a single-level ancestor (Person embeds Location at
`location`, cascade policy `NULL`) — `createParentDeleteMap` never
initialises the ancestor's `path` (it only assigns paths when a grandparent
exists), so `createPruningObservable` evaluates
`(link.path as string[]).join(".")` on `undefined` and the call errors with a
`TypeError` before any cascade is applied; the row deletions committed
beforehand stay committed (the Location store is already empty). -/
theorem c4_deleteRows_cascade_failing_input :
    cascadeDeleteRun.2 = .error .typeErrorJoin
    ∧ mapGet cascadeDeleteRun.1 "Location" = some []
    ∧ jsGetPropD ((((mapGet cascadeDeleteRun.1 "Person").getD []).map
        Prod.snd).headI) "location" ≠ .vnull := by
  exact ⟨by decide, by decide, by decide⟩

/-- C5: the claimed partial-failure behaviour fails on the code.  At the
failing input (three queued rows, the middle one rejected by the engine) the
call does not error with the aggregating store fault: the `errors.length`
check runs synchronously before any request event is delivered, so
`IndexedDBAddError` is unreachable — the failing row is silently dropped
from the emitted map and the observable completes successfully.  The second
half of the claim does hold: the rows written before and after the failure
stay committed. -/
theorem c5_partial_failure_eval :
    partialFailureRun.raisedAggregate = false
    ∧ partialFailureRun.errors = ["ConstraintError"]
    ∧ partialFailureRun.emit = .emitted
        [(.vstr "a", .vobj [("id", .vstr "a"), (idKey, .vstr "a")]),
         (.vstr "c", .vobj [("id", .vstr "c"), (idKey, .vstr "c")])]
    ∧ partialFailureRun.rows =
        [(.vstr "a", .vobj [("id", .vstr "a"), (idKey, .vstr "a")]),
         (.vstr "c", .vobj [("id", .vstr "c"), (idKey, .vstr "c")])] := by
  exact ⟨by decide, by decide, by decide, by decide⟩

/-- C6 counterexample: the `persist` write path raises no primary-key-missing
fault.  Persisting an entity without its primary-key property gives it an
`undefined` `__pkey__`, and the call fails with the storage engine's
`DataError` for the store — not with `NoPrimaryKeyInObjectError` naming the
Collection and the key. -/
theorem c6_persist_counterexample :
    (persist ([], []) 20 [] [.vobj [("name", .vstr "x")]]
        (.mk "S" "id" [] none) noEngineFail).2.2 = .error (.dataError "S")
    ∧ (Except.error (StoreFault.dataError "S")
        : Except StoreFault (List (String × Rows)))
      ≠ .error (.noPrimaryKeyInObject "S" "id") := by
  exact ⟨by decide, by decide⟩

/-- C8 counterexample: sorting with a column but no direction is descending,
not ascending — the comparator treats anything but the literal string `asc`
as descending (`options.direction === 'asc'`). -/
theorem c8_sort_direction_counterexample :
    sortContent 5 "S" [.vnum 1, .vnum 2]
      (some (RetrieveBySortingOptions.mk "x" none)) = [.vnum 2, .vnum 1]
    ∧ ([Value.vnum 2, Value.vnum 1] ≠ [Value.vnum 1, Value.vnum 2]) := by
  exact ⟨by decide, by decide⟩

/-- C10 counterexample: `clear` on a store the open database does not contain
emits `true` and then still fails — the guard lacks a `return`, so the code
falls through to `database.transaction(storeName)`, which throws the
missing-store fault right after the successful emission. -/
theorem c10_clear_counterexample :
    (clear [] "X").1 = [.next true, .error (.notFoundError "X")]
    ∧ ([Notif.next true, Notif.error (.notFoundError "X")] ≠ [Notif.next true]) := by
  exact ⟨by decide, by decide⟩

theorem mapGet_mapSet_self {α : Type} (m : List (String × α)) (k : String)
    (v : α) : mapGet (mapSet m k v) k = some v := by
  induction m with
  | nil => simp [mapSet, mapGet]
  | cons kv rest ih =>
    by_cases h : kv.1 = k
    · simp [mapSet, mapGet, h]
    · simp [mapSet, mapGet, h, ih]

theorem mapGet_mapSet_ne {α : Type} (m : List (String × α)) (k k₂ : String)
    (v : α) (h : k ≠ k₂) : mapGet (mapSet m k v) k₂ = mapGet m k₂ := by
  induction m with
  | nil => simp [mapSet, mapGet, h]
  | cons kv rest ih =>
    by_cases hk : kv.1 = k
    · simp [mapSet, mapGet, hk, h]
    · simp [mapSet, mapGet, hk, ih]

theorem mapGet_append_right_of_missing {α : Type} (m : List (String × α))
    (k : String) (rows : α) (h : mapGet m k = none) :
    mapGet (m ++ [(k, rows)]) k = some rows := by
  induction m with
  | nil => simp [mapGet]
  | cons kv rest ih =>
    by_cases hk : kv.1 = k
    · simp [mapGet, hk] at h
    · simp only [mapGet, hk] at h
      simp [mapGet, hk, ih h]

theorem flattenLinkedKeyList_nil (fuel : Nat) (sn : String)
    (st : OptionsMap × LinkMap) : flattenLinkedKeyList fuel sn [] st = st := by
  cases fuel <;> rfl

theorem addRelationsToContent_none (lm : LinkMap) (om : OptionsMap)
    (fuel : Nat) (content : Value) :
    addRelationsToContent lm om fuel content none = content := by
  cases fuel <;> rfl

theorem validKey_extractUuid_vstr (s : String) :
    validKey (extractUuid (.vstr s)) = true := by
  unfold extractUuid
  cases findUuid (jsString (Value.vstr s)).toList <;> rfl

/-- C10 amended: `clear` on a store the open database does not contain first
emits `true` (the guard's emission) and then errors with the missing-store
fault, because the guard does not return and the transaction on the missing
store throws; no rows change. -/
theorem c10_clear_missing_store_amended (db : Database) (storeName : String)
    (h : mapGet db storeName = none) :
    clear db storeName
      = ([.next true, .error (.notFoundError storeName)], db) := by
  unfold clear
  rw [h]

/-- Witness for the amended C10 theorem at a concrete database. -/
theorem c10_clear_missing_store_amended_witness :
    clear [("Other", [])] "X"
      = ([.next true, .error (.notFoundError "X")], [("Other", [])]) :=
  c10_clear_missing_store_amended [("Other", [])] "X" (by decide)

theorem jsSlice_nonneg {α : Type} (l : List α) (s e : Int) (hs : 0 ≤ s)
    (he : s ≤ e) : jsSlice l s e = (l.drop s.toNat).take (e - s).toNat := by
  unfold jsSlice
  have hs2 : ¬ s < 0 := by omega
  have he2 : ¬ e < 0 := by omega
  simp only [hs2, he2, if_false]
  by_cases hsl : s ≤ (l.length : Int)
  · have h₁ : min s (l.length : Int) = s := by omega
    rw [h₁, List.take_eq_take]
    have := List.length_drop s.toNat l
    omega
  · have h₁ : min s (l.length : Int) = (l.length : Int) := by omega
    have h₂ : min e (l.length : Int) = (l.length : Int) := by omega
    rw [h₁, h₂]
    rw [List.drop_eq_nil_of_le (by omega), List.drop_eq_nil_of_le (by omega)]
    simp

/-- C7: pagination semantics of `paginateContent`, as the claim states them.
For 1-indexed pages (`1 ≤ page`, `0 ≤ pageSize`) with pagination not
explicitly disabled: content no longer than the page size is returned
untouched; longer content yields the 0-based slice
`[(page-1)*pageSize, (page-1)*pageSize + pageSize)`; page 1 returns
`min N pageSize` rows (in the incoming, i.e. sorted, order); and the last
page `⌈N / pageSize⌉` returns exactly the remaining rows. -/
theorem c7_pagination_behaviour {α : Type} (content : List α)
    (page pageSize : Int) (pag : Option Bool) (hpage : 1 ≤ page)
    (hsize : 0 ≤ pageSize) (hpag : pag ≠ some false) :
    (((content.length : Int) ≤ pageSize →
      paginateContent content (some (RetrieveByPageOptions.mk page pageSize pag))
        = content)
    ∧ (pageSize < (content.length : Int) →
      paginateContent content (some (RetrieveByPageOptions.mk page pageSize pag))
        = (content.drop ((page - 1) * pageSize).toNat).take pageSize.toNat))
    ∧ (page = 1 →
      (paginateContent content (some (RetrieveByPageOptions.mk page pageSize pag))).length
        = min content.length pageSize.toNat)
    ∧ (0 < pageSize → pageSize < (content.length : Int) →
      page = ((content.length : Int) + pageSize - 1) / pageSize →
      paginateContent content (some (RetrieveByPageOptions.mk page pageSize pag))
        = content.drop (((page - 1) * pageSize).toNat)) := by
  have hstart : (0 : Int) ≤ (page - 1) * pageSize :=
    mul_nonneg (by omega) hsize
  have hmain : ∀ hcase : Prop, True := fun _ => trivial
  have hbind : (some (RetrieveByPageOptions.mk page pageSize pag)).bind
      (fun o => o.pagination) = pag := rfl
  have hno : ¬ ((some (RetrieveByPageOptions.mk page pageSize pag)).bind
      (fun o => o.pagination) = some false) := by
    rw [hbind]; exact hpag
  have hfull : (content.length : Int) ≤ pageSize →
      paginateContent content (some (RetrieveByPageOptions.mk page pageSize pag))
        = content := by
    intro hle
    simp only [paginateContent, hno, if_false, if_neg, hstart, if_pos, hle]
  have hslice : pageSize < (content.length : Int) →
      paginateContent content (some (RetrieveByPageOptions.mk page pageSize pag))
        = (content.drop ((page - 1) * pageSize).toNat).take pageSize.toNat := by
    intro hlt
    have hle : ¬ ((content.length : Int) ≤ pageSize) := by omega
    simp only [paginateContent, hno, if_false, hstart, if_pos, hle]
    rw [jsSlice_nonneg content _ _ hstart (by omega)]
    congr 1
    omega
  refine ⟨⟨hfull, hslice⟩, ?_, ?_⟩
  · intro h1
    by_cases hle : (content.length : Int) ≤ pageSize
    · rw [hfull hle]; omega
    · rw [hslice (by omega)]
      subst h1
      simp only [show ((1 : Int) - 1) * pageSize = 0 by ring, Int.toNat_zero,
        List.drop_zero, List.length_take]
      omega
  · intro hpos hlt hceil
    rw [hslice hlt]
    apply List.take_of_length_le
    have hdm := Int.ediv_add_emod ((content.length : Int) + pageSize - 1) pageSize
    have hm1 := Int.emod_nonneg ((content.length : Int) + pageSize - 1)
      (show pageSize ≠ 0 by omega)
    have hm2 := Int.emod_lt_of_pos ((content.length : Int) + pageSize - 1) hpos
    have hlen := List.length_drop (((page - 1) * pageSize).toNat) content
    rw [hlen]
    have hcomm : pageSize * (((content.length : Int) + pageSize - 1) / pageSize)
        = (((content.length : Int) + pageSize - 1) / pageSize) * pageSize :=
      mul_comm _ _
    have hmul : page * pageSize ≥ (content.length : Int) := by
      rw [hceil]
      omega
    have hexp : (page - 1) * pageSize = page * pageSize - pageSize := by ring
    rw [hexp]
    omega

/-- Witness for the C7 pagination theorem at a concrete five-row list, page
size 2. -/
theorem c7_pagination_behaviour_witness :
    paginateContent [10, 20, 30, 40, 50] (some (RetrieveByPageOptions.mk 3 2 none))
      = [50] := by
  have h := (c7_pagination_behaviour [10, 20, 30, 40, 50] 3 2 none (by decide)
    (by decide) (by decide)).2.2 (by decide) (by decide) (by decide)
  rw [h]
  decide

/-- C8 amended: sorting applies a comparison sort over the value resolved at
the dot-split column, but the default direction — whenever the direction is
not the literal string `asc`, including when none is given — is DESCENDING,
not ascending.  The sorted result is always a permutation of the content;
sorting with no direction equals sorting with an explicit `desc`; an item
that does not own the first path segment (in particular any primitive, such
as the elements of an array of primitives) falls back to identity comparison
(the resolver returns the item itself); and on concrete numeric content the
default order is descending while `asc` yields ascending. -/
theorem c8_sort_default_direction_amended (fuel : Nat) (content : List Value)
    (col : String) :
    ((sortContent fuel "S" content (some (RetrieveBySortingOptions.mk col none))).Perm
      content
    ∧ sortContent fuel "S" content (some (RetrieveBySortingOptions.mk col none))
      = sortContent fuel "S" content
          (some (RetrieveBySortingOptions.mk col (some "desc"))))
    ∧ (∀ fuel₂ : Nat, ∀ item : Value, ∀ p : String, ∀ ps : List String,
        jsHasOwn item p = false → getComparisonValue (fuel₂ + 1) item (p :: ps) = item)
    ∧ (sortContent 5 "S" [.vnum 1, .vnum 3, .vnum 2]
        (some (RetrieveBySortingOptions.mk "x" none)) = [.vnum 3, .vnum 2, .vnum 1]
      ∧ sortContent 5 "S" [.vnum 1, .vnum 3, .vnum 2]
        (some (RetrieveBySortingOptions.mk "x" (some "asc")))
          = [.vnum 1, .vnum 2, .vnum 3]) := by
  refine ⟨⟨?_, ?_⟩, ?_, by decide, by decide⟩
  · unfold sortContent
    by_cases hcol : col = ""
    · simp [hcol]
    · simp only [hcol, if_false]
      exact List.perm_insertionSort _ _
  · rfl
  · intro fuel₂ item p ps h
    unfold getComparisonValue
    simp [h]

/-- Witness for the amended C8 theorem: the identity fallback applied to a
concrete primitive. -/
theorem c8_sort_default_direction_amended_witness :
    getComparisonValue 3 (.vnum 7) ["x"] = .vnum 7 :=
  (c8_sort_default_direction_amended 1 [] "x").2.1 2 (.vnum 7) "x" [] (by decide)

theorem filterDupes_singleton (pk : String) (x : Value) :
    filterDupes pk [] [x] = [x] := by
  simp [filterDupes]

theorem initializeStores_single_get (db : Database) (C : String)
    (l : List Value) :
    mapGet (initializeStores db [(C, l)] [C]) C = some [] := by
  unfold initializeStores
  simp only [List.foldl_cons, List.foldl_nil]
  cases hdb : mapGet db C with
  | none => simpa using mapGet_append_right_of_missing db C [] hdb
  | some rows => simp [hdb, mapGet_mapSet_self]

theorem persist_nolinks_run (C pk : String) (fs : List (String × Value))
    (fuel : Nat) (om₀ : OptionsMap) (db : Database) :
    persist (om₀, []) (fuel + 1) db [.vobj fs] (.mk C pk [] none) noEngineFail
      = (((mapSet (if (mapGet om₀ C).isSome then om₀
            else mapSet om₀ C (.mk C pk [] none)) C (.mk C pk [] none)), []),
         (let kv := extractUuid ((mapGet fs pk).getD .vundef)
          let item := Value.vobj (mapSet fs idKey kv)
          let dbInit := initializeStores db [(C, [Value.vobj fs])] [C]
          if validKey kv then
            (mapSet dbInit C [(kv, item)], .ok [(C, [(kv, item)])])
          else (mapSet dbInit C [], .error (.dataError C)))) := by
  unfold persist updatePersistenceSettings flattenPersistenceLinkOptions
  simp only [flattenLinkedKeyList_nil]
  unfold parseContentForLinking
  have hpk : primaryKeyOf (mapSet (if (mapGet om₀ C).isSome then om₀
      else mapSet om₀ C (.mk C pk [] none)) C (.mk C pk [] none)) C = pk := by
    unfold primaryKeyOf
    rw [mapGet_mapSet_self]
    rfl
  simp only [TtPersistenceOptions.storeName, mapGet, Option.getD_none, hpk,
    filterDupes_singleton, List.nil_append, mapSet]
  unfold insertLinkedItemsInStores
  have hinit := initializeStores_single_get db C [Value.vobj fs]
  simp only [TtPersistenceOptions.storeName, List.find?, hinit,
    Option.isSome_some, Option.isNone_some]
  unfold insertStoresLoop
  simp only [TtPersistenceOptions.storeName, hpk, hinit, Option.getD_some]
  unfold createQueueObservable
  simp only [addIdKeyToContent, List.map_cons, List.map_nil, objAssignFields,
    jsGetPropD, addRelationsToContentList, addRelationsToContent_none, mapGet]
  have hid : mapGet (mapSet fs idKey
      (extractUuid ((mapGet fs pk).getD .vundef))) idKey
      = some (extractUuid ((mapGet fs pk).getD .vundef)) :=
    mapGet_mapSet_self fs idKey _
  cases hv : validKey (extractUuid ((mapGet fs pk).getD .vundef)) with
  | false =>
    simp [List.takeWhile, hid, hv]
  | true =>
    simp [List.takeWhile, hid, hv, noEngineFail, rowsPut, hinit,
      insertStoresLoop]

/-- C6 amended: only the `post`/`put` write path raises the primary-key-missing
fault naming the Collection and the offending key (via `getPrimaryKeyValue`,
whenever the resolved key value is falsy, i.e. missing or the empty string).
The `persist` path instead fails with the storage engine's generic `DataError`
for the store when the key property is missing, and it silently accepts an
entity whose primary-key value is the empty string, committing that row under
the empty-string key. -/
theorem c6_primary_key_fault_amended (item : Value) (s k C pk : String)
    (fs fs₂ : List (String × Value)) (fuel : Nat) (om₀ : OptionsMap)
    (db : Database)
    (hfalsy : jsTruthy (extractUuid (jsGetPropD item k)) = false)
    (hmiss : mapGet fs pk = none)
    (hempty : mapGet fs₂ pk = some (.vstr "")) :
    getPrimaryKeyValue item s k = .error (.noPrimaryKeyInObject s k)
    ∧ (persist (om₀, []) (fuel + 1) db [.vobj fs] (.mk C pk [] none)
        noEngineFail).2.2 = .error (.dataError C)
    ∧ mapGet (persist (om₀, []) (fuel + 1) db [.vobj fs₂] (.mk C pk [] none)
        noEngineFail).2.1 C
      = some [(.vstr "", .vobj (mapSet fs₂ idKey (.vstr "")))] := by
  refine ⟨?_, ?_, ?_⟩
  · unfold getPrimaryKeyValue
    simp [hfalsy]
  · rw [persist_nolinks_run]
    have h1 : validKey (extractUuid Value.vundef) = false := by decide
    simp [hmiss, h1]
  · rw [persist_nolinks_run]
    have he : extractUuid (Value.vstr "") = .vstr "" := by decide
    have hvk : validKey (Value.vstr "") = true := by decide
    simp [hempty, he, hvk, mapGet_mapSet_self]

theorem c6_primary_key_fault_amended_witness :
    (jsTruthy (extractUuid (jsGetPropD (Value.vobj []) "id")) = false
     ∧ mapGet ([("name", Value.vstr "x")] : List (String × Value)) "id" = none
     ∧ mapGet ([("id", Value.vstr "")] : List (String × Value)) "id"
        = some (.vstr ""))
    ∧ (getPrimaryKeyValue (.vobj []) "S" "id"
        = .error (.noPrimaryKeyInObject "S" "id")
       ∧ (persist ([], []) 1 [] [.vobj [("name", .vstr "x")]]
           (.mk "S" "id" [] none) noEngineFail).2.2 = .error (.dataError "S")
       ∧ mapGet (persist ([], []) 1 [] [.vobj [("id", .vstr "")]]
           (.mk "S" "id" [] none) noEngineFail).2.1 "S"
          = some [(.vstr "", .vobj (mapSet [("id", .vstr "")] idKey
              (.vstr "")))]) :=
  ⟨⟨by decide, by decide, by decide⟩,
   c6_primary_key_fault_amended (.vobj []) "S" "id" "S" "id"
     [("name", .vstr "x")] [("id", .vstr "")] 0 [] []
     (by decide) (by decide) (by decide)⟩

theorem filterDupes_nodup (pk : String) (seen xs : List Value) :
    ((filterDupes pk seen xs).map (fun x => jsGetPropD x pk)).Nodup
    ∧ ∀ v ∈ (filterDupes pk seen xs).map (fun x => jsGetPropD x pk),
        v ∉ seen := by
  induction xs generalizing seen with
  | nil => simp [filterDupes]
  | cons x rest ih =>
    by_cases hmem : jsGetPropD x pk ∈ seen
    · have hstep : filterDupes pk seen (x :: rest)
          = filterDupes pk seen rest := by
        simp [filterDupes, hmem]
      rw [hstep]
      exact ih seen
    · have hstep : filterDupes pk seen (x :: rest)
          = x :: filterDupes pk (jsGetPropD x pk :: seen) rest := by
        simp [filterDupes, hmem]
      obtain ⟨h1, h2⟩ := ih (jsGetPropD x pk :: seen)
      rw [hstep, List.map_cons]
      refine ⟨List.nodup_cons.mpr
        ⟨fun hc => (h2 _ hc) (List.mem_cons_self _ _), h1⟩, ?_⟩
      intro v hv
      rcases List.mem_cons.mp hv with rfl | hv₂
      · exact hmem
      · exact fun hs => (h2 v hv₂) (List.mem_cons_of_mem _ hs)

theorem nodupQueue_mapSet (om : OptionsMap) (q : QueueMap) (sn : String)
    (l : List Value) (hq : NodupQueue om q)
    (hl : (l.map (fun x => jsGetPropD x (primaryKeyOf om sn))).Nodup) :
    NodupQueue om (mapSet q sn l) := by
  intro st l₂ hget
  by_cases hst : sn = st
  · subst hst
    rw [mapGet_mapSet_self] at hget
    cases hget
    exact hl
  · rw [mapGet_mapSet_ne _ _ _ _ hst] at hget
    exact hq st l₂ hget

theorem parse_group_nodup (lm : LinkMap) (om : OptionsMap) (fuel : Nat) :
    (∀ sn cs q, NodupQueue om q →
      NodupQueue om (parseContentForLinking lm om fuel sn cs q))
    ∧ (∀ ltm cs q, NodupQueue om q →
      NodupQueue om (extractLinkedContentList lm om fuel ltm cs q))
    ∧ (∀ c ltm q, NodupQueue om q →
      NodupQueue om (extractLinkedContent lm om fuel c ltm q))
    ∧ (∀ pk sn it q, NodupQueue om q →
      NodupQueue om (parseNestedItem lm om fuel pk sn it q))
    ∧ (∀ pk sn xs q, NodupQueue om q →
      NodupQueue om (parseNestedItems lm om fuel pk sn xs q)) := by
  induction fuel with
  | zero =>
    refine ⟨fun sn cs q hq => ?_, fun ltm cs q hq => ?_, fun c ltm q hq => ?_,
      fun pk sn it q hq => ?_, fun pk sn xs q hq => ?_⟩ <;>
      simpa [parseContentForLinking, extractLinkedContentList,
        extractLinkedContent, parseNestedItem, parseNestedItems] using hq
  | succ fuel ih =>
    obtain ⟨ih1, ih2, ih3, ih4, ih5⟩ := ih
    refine ⟨fun sn cs q hq => ?_, fun ltm cs q hq => ?_, fun c ltm q hq => ?_,
      fun pk sn it q hq => ?_, fun pk sn xs q hq => ?_⟩
    · simp only [parseContentForLinking]
      cases hlm : mapGet lm sn with
      | none =>
        exact nodupQueue_mapSet om q sn _ hq (filterDupes_nodup _ _ _).1
      | some ltm =>
        exact nodupQueue_mapSet om _ sn _ (ih2 ltm cs q hq)
          (filterDupes_nodup _ _ _).1
    · cases cs with
      | nil => simpa [extractLinkedContentList] using hq
      | cons c rest =>
        simp only [extractLinkedContentList]
        exact ih2 ltm rest _ (ih3 c ltm q hq)
    · induction ltm generalizing q with
      | nil => simpa [extractLinkedContent] using hq
      | cons hd rest ihl =>
        obtain ⟨prop, sn'⟩ := hd
        simp only [extractLinkedContent]
        apply ih3
        split
        · exact hq
        · split
          · exact ih5 _ _ _ _ hq
          · exact ih4 _ _ _ _ hq
    · simp only [parseNestedItem]
      split
      · exact hq
      · exact ih1 _ _ _ hq
    · cases xs with
      | nil => simpa [parseNestedItems] using hq
      | cons x rest =>
        simp only [parseNestedItems]
        exact ih5 _ _ rest _ (ih4 _ _ x q hq)

theorem rowsPut_keys (rows : List (Value × Value)) (k v a : Value)
    (ha : a ∈ (rowsPut rows k v).map Prod.fst) :
    a ∈ rows.map Prod.fst ∨ a = k := by
  induction rows with
  | nil =>
    simp [rowsPut] at ha
    exact .inr ha
  | cons kv rest ih =>
    obtain ⟨k₂, w⟩ := kv
    by_cases hk : k₂ = k
    · have hstep : rowsPut ((k₂, w) :: rest) k v = (k₂, v) :: rest := by
        simp [rowsPut, hk]
      rw [hstep, List.map_cons] at ha
      rcases List.mem_cons.mp ha with rfl | ha₂
      · exact .inr hk
      · exact .inl (List.mem_cons_of_mem _ ha₂)
    · have hstep : rowsPut ((k₂, w) :: rest) k v
          = (k₂, w) :: rowsPut rest k v := by
        simp [rowsPut, hk]
      rw [hstep, List.map_cons] at ha
      rcases List.mem_cons.mp ha with rfl | ha₂
      · exact .inl (by simp)
      · rcases ih ha₂ with h | h
        · exact .inl (List.mem_cons_of_mem _ h)
        · exact .inr h

theorem rowsPut_nodup (rows : List (Value × Value)) (k v : Value)
    (h : (rows.map Prod.fst).Nodup) :
    ((rowsPut rows k v).map Prod.fst).Nodup := by
  induction rows with
  | nil => simp [rowsPut]
  | cons kv rest ih =>
    obtain ⟨k₂, w⟩ := kv
    rw [List.map_cons, List.nodup_cons] at h
    by_cases hk : k₂ = k
    · have hstep : rowsPut ((k₂, w) :: rest) k v = (k₂, v) :: rest := by
        simp [rowsPut, hk]
      rw [hstep, List.map_cons, List.nodup_cons]
      exact h
    · have hstep : rowsPut ((k₂, w) :: rest) k v
          = (k₂, w) :: rowsPut rest k v := by
        simp [rowsPut, hk]
      rw [hstep, List.map_cons, List.nodup_cons]
      refine ⟨fun hc => ?_, ih h.2⟩
      rcases rowsPut_keys rest k v k₂ hc with hm | rfl
      · exact h.1 hm
      · exact hk rfl

/-- C2: persist is idempotent on identity and commits at most one row per
primary-key value per Collection.  (a) Persisting the same entity twice into
the same Collection leaves exactly one row (the second call recreates the
object store and re-inserts the single deduplicated item).  (b) The linking
queue built by `parseContentForLinking` never holds two items with the same
raw primary-key value for the same store, so repeated nested references to
one entity collapse to one queued write.  (c) The keyed put of the storage
model never duplicates a key, so however items are queued, a store ends a
persist call with at most one row per `__pkey__` value. -/
theorem c2_persist_idempotent (C pk s₀ : String)
    (fs : List (String × Value)) (fuel : Nat) (om₀ : OptionsMap)
    (db : Database) (lm : LinkMap) (om : OptionsMap)
    (hkey : mapGet fs pk = some (.vstr s₀)) :
    ((mapGet (persist (om₀, []) (fuel + 1)
        (persist (om₀, []) (fuel + 1) db [.vobj fs] (.mk C pk [] none)
          noEngineFail).2.1
        [.vobj fs] (.mk C pk [] none) noEngineFail).2.1 C).getD []).length = 1
    ∧ (∀ fuel₂ sn cs q, NodupQueue om q →
        NodupQueue om (parseContentForLinking lm om fuel₂ sn cs q))
    ∧ (∀ rows k v, ((rows.map Prod.fst) : List Value).Nodup →
        ((rowsPut rows k v).map Prod.fst).Nodup) := by
  refine ⟨?_, fun fuel₂ => (parse_group_nodup lm om fuel₂).1,
    fun rows k v h => rowsPut_nodup rows k v h⟩
  simp only [persist_nolinks_run]
  simp [hkey, validKey_extractUuid_vstr, mapGet_mapSet_self]

theorem c2_persist_idempotent_witness :
    mapGet ([("id", Value.vstr "u1")] : List (String × Value)) "id"
      = some (.vstr "u1")
    ∧ (((mapGet (persist ([], []) 1
         (persist ([], []) 1 [] [.vobj [("id", .vstr "u1")]]
           (.mk "S" "id" [] none) noEngineFail).2.1
         [.vobj [("id", .vstr "u1")]] (.mk "S" "id" [] none)
           noEngineFail).2.1 "S").getD []).length = 1
       ∧ (∀ fuel₂ sn cs q, NodupQueue [] q →
           NodupQueue [] (parseContentForLinking [] [] fuel₂ sn cs q))
       ∧ (∀ rows k v, ((rows.map Prod.fst) : List Value).Nodup →
           ((rowsPut rows k v).map Prod.fst).Nodup)) :=
  ⟨by decide,
   c2_persist_idempotent "S" "id" "u1" [("id", .vstr "u1")] 0 [] [] [] []
     (by decide)⟩

theorem heapExtends_refl (h : Heap) : HeapExtends h h :=
  ⟨le_refl _, List.take_length _⟩

theorem heapExtends_trans {h₁ h₂ h₃ : Heap} (a : HeapExtends h₁ h₂)
    (b : HeapExtends h₂ h₃) : HeapExtends h₁ h₃ := by
  obtain ⟨l₁, t₁⟩ := a
  obtain ⟨l₂, t₂⟩ := b
  refine ⟨le_trans l₁ l₂, ?_⟩
  calc h₃.take h₁.length = (h₃.take h₂.length).take h₁.length := by
        rw [List.take_take, min_eq_left l₁]
    _ = h₂.take h₁.length := by rw [t₂]
    _ = h₁ := t₁

theorem heapExtends_append (h cs : Heap) : HeapExtends h (h ++ cs) :=
  ⟨by simp, List.take_left _ _⟩

theorem take_set_of_le {α : Type} (l : List α) (a n : Nat) (c : α)
    (h : n ≤ a) : (l.set a c).take n = l.take n := by
  induction l generalizing a n with
  | nil => simp
  | cons x rest ih =>
    cases n with
    | zero => simp
    | succ n =>
      cases a with
      | zero => omega
      | succ a =>
        simp only [List.set, List.take]
        rw [ih a n (by omega)]

theorem heapExtends_set {h₀ h : Heap} (addr : Nat) (c : HCell)
    (he : HeapExtends h₀ h) (haddr : h₀.length ≤ addr) :
    HeapExtends h₀ (h.set addr c) := by
  obtain ⟨l₁, t₁⟩ := he
  refine ⟨by simpa using l₁, ?_⟩
  rw [take_set_of_le _ _ _ _ haddr, t₁]

theorem heapExtends_get {h₀ h : Heap} (he : HeapExtends h₀ h) (a : Nat)
    (ha : a < h₀.length) : h.get? a = h₀.get? a := by
  obtain ⟨_, t₁⟩ := he
  conv_rhs => rw [← t₁]
  rw [List.get?_take ha]

theorem heapExtends_hwriteField {h₀ h : Heap} (addr : Nat) (k : String)
    (v : HVal) (he : HeapExtends h₀ h) (haddr : h₀.length ≤ addr) :
    HeapExtends h₀ (hwriteField h addr k v) := by
  unfold hwriteField
  split
  · exact heapExtends_set addr _ he haddr
  · exact he

theorem heapExtends_hdeleteTags {h₀ h : Heap} (addr : Nat)
    (he : HeapExtends h₀ h) (haddr : h₀.length ≤ addr) :
    HeapExtends h₀ (hdeleteTags h addr) := by
  unfold hdeleteTags
  split
  · exact heapExtends_set addr _ he haddr
  · exact he

theorem hwriteField_get_hobj (h : Heap) (addr : Nat) (k : String) (v : HVal)
    (fs₁ : List (String × HVal)) (hf : h.get? addr = some (.hobj fs₁)) :
    (hwriteField h addr k v).get? addr = some (.hobj (mapSet fs₁ k v)) := by
  have hlt : addr < h.length := (List.get?_eq_some.mp hf).1
  unfold hwriteField
  rw [hf]
  simp [List.get?_eq_getElem?, List.getElem?_set_self, hlt]

theorem hdeleteTags_get (h : Heap) (addr : Nat) (fs : List (String × HVal))
    (hf : h.get? addr = some (.hobj fs)) :
    (hdeleteTags h addr).get? addr
      = some (.hobj (mapDelete (mapDelete fs idKey) storeKey)) := by
  have hlt : addr < h.length := (List.get?_eq_some.mp hf).1
  unfold hdeleteTags
  rw [hf]
  simp [List.get?_eq_getElem?, List.getElem?_set_self, hlt]

theorem hdeleteTags_get_ne (h : Heap) (addr a : Nat) (hne : addr ≠ a) :
    (hdeleteTags h addr).get? a = h.get? a := by
  unfold hdeleteTags
  split
  · simp [List.get?_eq_getElem?, List.getElem?_set_ne hne]
  · rfl

theorem mapGet_mapDelete_self {α : Type} (m : List (String × α))
    (k : String) : mapGet (mapDelete m k) k = none := by
  induction m with
  | nil => rfl
  | cons kv rest ih =>
    by_cases hk : kv.1 = k
    · simpa [mapDelete, mapGet, hk] using ih
    · simpa [mapDelete, mapGet, hk] using ih

theorem mapGet_mapDelete_none {α : Type} (m : List (String × α))
    (k k₂ : String) (h : mapGet m k = none) :
    mapGet (mapDelete m k₂) k = none := by
  induction m with
  | nil => rfl
  | cons kv rest ih =>
    by_cases hk : kv.1 = k
    · simp [mapGet, hk] at h
    · by_cases hk₂ : kv.1 = k₂
      · simp only [mapGet, hk, if_neg] at h
        simpa [mapDelete, mapGet, hk₂] using ih (by simpa [mapGet, hk] using h)
      · simp only [mapGet, hk, if_neg] at h
        simpa [mapDelete, mapGet, hk₂, mapGet, hk] using
          ih (by simpa [mapGet, hk] using h)

theorem cleanH_frame (fuel : Nat) :
    (∀ h v, HeapExtends h (removeGeneratedIdKeyFromContentH fuel h v).1)
    ∧ (∀ h xs, HeapExtends h (cleanNestedListH fuel h xs).1)
    ∧ (∀ h v, HeapExtends h (cleanNestedH fuel h v).1)
    ∧ (∀ h₀ h addr fields, HeapExtends h₀ h → h₀.length ≤ addr →
        HeapExtends h₀ (cleanLoopH fuel h addr fields))
    ∧ (∀ h addr fields fs₁, h.get? addr = some (.hobj fs₁) →
        ∃ fs₂, (cleanLoopH fuel h addr fields).get? addr
          = some (.hobj fs₂)) := by
  induction fuel with
  | zero =>
    exact ⟨fun h v => heapExtends_refl h, fun h xs => heapExtends_refl h,
      fun h v => heapExtends_refl h, fun h₀ h addr fields he _ => he,
      fun h addr fields fs₁ hf => ⟨fs₁, hf⟩⟩
  | succ fuel ih =>
    obtain ⟨ih1, ih2, ih3, ih4, ih5⟩ := ih
    refine ⟨?_, ?_, ?_, ?_, ?_⟩
    · intro h v
      simp only [removeGeneratedIdKeyFromContentH]
      split
      · split
        · split
          · exact heapExtends_trans (ih2 _ _) (heapExtends_append _ _)
          · exact ih3 _ _
        · exact ih3 _ _
      · exact ih3 _ _
    · intro h xs
      simp only [cleanNestedListH]
      split
      · exact heapExtends_refl h
      · exact heapExtends_trans (ih3 _ _) (ih2 _ _)
    · intro h v
      simp only [cleanNestedH, halloc]
      exact heapExtends_hdeleteTags _
        (ih4 h _ h.length _ (heapExtends_append _ _) (le_refl _)) (le_refl _)
    · intro h₀ h addr fields he hle
      simp only [cleanLoopH]
      split
      · exact he
      · apply ih4 _ _ _ _ ?_ hle
        split
        · exact heapExtends_hwriteField _ _ _
            (heapExtends_trans he (ih1 _ _)) hle
        · exact he
    · intro h addr fields fs₁ hf
      have hlt : addr < h.length := (List.get?_eq_some.mp hf).1
      simp only [cleanLoopH]
      split
      · exact ⟨fs₁, hf⟩
      · rename_i k v rest
        split
        · exact ih5 _ _ _
            (mapSet fs₁ k (removeGeneratedIdKeyFromContentH fuel h v).2)
            (hwriteField_get_hobj _ addr k _ fs₁
              (by rw [heapExtends_get (ih1 h v) addr hlt]; exact hf))
        · exact ih5 _ _ _ fs₁ hf

/-- C9: the tag-stripping function is pure with respect to the heap it is
given — it only appends fresh cells, never mutating an existing one, so a
read leaves every stored row (tags included) unchanged.  For an object
argument it returns a reference to a freshly allocated cell (address at or
past the old heap top) holding the cleaned copy, with the `__pkey__` and
`__store__` fields absent, while the argument's own cell still holds its
original fields. -/
theorem c9_strip_no_mutation (fuel : Nat) (h : Heap) (v : HVal) (a : Nat)
    (fs : List (String × HVal)) (ha : h.get? a = some (.hobj fs)) :
    HeapExtends h (removeGeneratedIdKeyFromContentH fuel h v).1
    ∧ ∃ r fs₂,
        (removeGeneratedIdKeyFromContentH (fuel + 2) h (.href a)).2 = .href r
        ∧ h.length ≤ r
        ∧ (removeGeneratedIdKeyFromContentH (fuel + 2) h (.href a)).1.get? a
            = some (.hobj fs)
        ∧ (removeGeneratedIdKeyFromContentH (fuel + 2) h (.href a)).1.get? r
            = some (.hobj fs₂)
        ∧ mapGet fs₂ idKey = none ∧ mapGet fs₂ storeKey = none := by
  refine ⟨(cleanH_frame fuel).1 h v, ?_⟩
  have halt : a < h.length := (List.get?_eq_some.mp ha).1
  have ha₂ : h[a]? = some (HCell.hobj fs) := by
    rw [← List.get?_eq_getElem?]
    exact ha
  have hisarr : hIsArray h (.href a) = false := by simp [hIsArray, ha₂]
  have hfields : hObjAssignFields h (.href a) = fs := by
    simp [hObjAssignFields, ha₂]
  have heq : removeGeneratedIdKeyFromContentH (fuel + 2) h (.href a)
      = (hdeleteTags
          (cleanLoopH fuel (h ++ [.hobj fs]) h.length fs) h.length,
         .href h.length) := by
    show removeGeneratedIdKeyFromContentH (fuel + 1 + 1) h (.href a) = _
    simp [removeGeneratedIdKeyFromContentH, hisarr, cleanNestedH, halloc,
      hfields]
  have hfresh : (h ++ [HCell.hobj fs]).get? h.length = some (.hobj fs) :=
    List.get?_concat_length _ _
  obtain ⟨fs₃, hfs₃⟩ :=
    (cleanH_frame fuel).2.2.2.2 (h ++ [.hobj fs]) h.length fs fs hfresh
  have hloopext : HeapExtends h
      (cleanLoopH fuel (h ++ [.hobj fs]) h.length fs) :=
    (cleanH_frame fuel).2.2.2.1 h (h ++ [.hobj fs]) h.length fs
      (heapExtends_append _ _) (le_refl _)
  refine ⟨h.length, mapDelete (mapDelete fs₃ idKey) storeKey, ?_, le_refl _,
    ?_, ?_, ?_, ?_⟩
  · rw [heq]
  · rw [heq]
    have hne : h.length ≠ a := by omega
    rw [hdeleteTags_get_ne _ _ _ hne,
      heapExtends_get hloopext a halt]
    exact ha
  · rw [heq]
    exact hdeleteTags_get _ _ fs₃ hfs₃
  · exact mapGet_mapDelete_none _ _ _ (mapGet_mapDelete_self _ _)
  · exact mapGet_mapDelete_self _ _

theorem c9_strip_no_mutation_witness :
    ([HCell.hobj [("id", HVal.hstr "x"), (idKey, .hstr "x"),
        (storeKey, .hstr "S")]].get? 0
      = some (.hobj [("id", HVal.hstr "x"), (idKey, .hstr "x"),
        (storeKey, .hstr "S")]))
    ∧ (HeapExtends [HCell.hobj [("id", HVal.hstr "x"), (idKey, .hstr "x"),
          (storeKey, .hstr "S")]]
        (removeGeneratedIdKeyFromContentH 0
          [HCell.hobj [("id", HVal.hstr "x"), (idKey, .hstr "x"),
            (storeKey, .hstr "S")]] .hnull).1
       ∧ ∃ r fs₂,
          (removeGeneratedIdKeyFromContentH 2
            [HCell.hobj [("id", HVal.hstr "x"), (idKey, .hstr "x"),
              (storeKey, .hstr "S")]] (.href 0)).2 = .href r
          ∧ 1 ≤ r
          ∧ (removeGeneratedIdKeyFromContentH 2
              [HCell.hobj [("id", HVal.hstr "x"), (idKey, .hstr "x"),
                (storeKey, .hstr "S")]] (.href 0)).1.get? 0
              = some (.hobj [("id", HVal.hstr "x"), (idKey, .hstr "x"),
                (storeKey, .hstr "S")])
          ∧ (removeGeneratedIdKeyFromContentH 2
              [HCell.hobj [("id", HVal.hstr "x"), (idKey, .hstr "x"),
                (storeKey, .hstr "S")]] (.href 0)).1.get? r
              = some (.hobj fs₂)
          ∧ mapGet fs₂ idKey = none ∧ mapGet fs₂ storeKey = none) :=
  ⟨by decide,
   c9_strip_no_mutation 0 [HCell.hobj [("id", HVal.hstr "x"),
     (idKey, .hstr "x"), (storeKey, .hstr "S")]] .hnull 0
     [("id", HVal.hstr "x"), (idKey, .hstr "x"), (storeKey, .hstr "S")]
     (by decide)⟩

end TtPersistence
